import Mathlib

/-!
Verification development for the stack-item type system and binary
serialization layer of the ontology-ts-vm smart-contract virtual machine
(`src/smartcontract/service/runtime.ts`, `src/vm/types/boolean.ts`,
`src/vm/types/integer.ts`).

Two shallow embeddings are used:

* a tree embedding (`SI`) of stack items for the binary codec
  (`serializeStackItem` / `deserializeStackItem`), faithful to values built
  from the variant grammar, where every container is a fresh object; and
* a heap embedding (`Cell` / `Heap`, nodes addressed by `Nat` ids) for the
  cycle/depth guard (`circularRefAndDepthDetectionInternal`), which is the
  only part of the code that observes object identity (its `visited` map is
  keyed on the identity of the payload array/map of a container).

Machine integers (`Long`, 64-bit signed) are modelled as `Int` with explicit
range conditions; `Buffer`s are `List Nat` of byte values; fallible code
returns `Except String`.

Recursive functions of the source whose recursion is bounded only by the
shape of their input are given an explicit fuel argument (structural on the
fuel) so that they are executable by the kernel; every top-level entry point
supplies enough fuel for the inputs it is actually called on, mirroring the
source's own termination arguments (the guard's `depth` counter, the fact
that the decoder consumes at least one byte per recursive call, and the
guard's depth bound for the serializer).
-/

/-- Modelled from the spec: `MAX_STRUCT_DEPTH` is imported by `runtime.ts`
from `vm/types/struct.ts`, which is not among the sources under review; the
spec only names it as a fixed constant.  The numeric value follows the
upstream ontology constant.  All general lemmas below are proved by
induction and do not depend on the specific value. -/
def MAX_STRUCT_DEPTH : Nat := 10

/-- Modelled from the spec: `MAX_BYTEARRAY_SIZE` is imported by `runtime.ts`
from `vm/consts.ts`, which is not among the sources under review; the spec
names it as the maximum total encoded size. -/
def MAX_BYTEARRAY_SIZE : Nat := 1024 * 1024

/-! ## Little-endian byte strings -/

/-- Little-endian base-256 digits of `n`, exactly `k` bytes (truncating). -/
def leBytesFixed : Nat → Nat → List Nat
  | 0, _ => []
  | k + 1, n => n % 256 :: leBytesFixed k (n / 256)

/-- Value of a little-endian byte string. -/
def leValue (bs : List Nat) : Nat :=
  bs.foldr (fun b acc => b + 256 * acc) 0

theorem leBytesFixed_length (k n : Nat) : (leBytesFixed k n).length = k := by
  induction k generalizing n with
  | zero => rfl
  | succ k ih => simp [leBytesFixed, ih]

theorem leValue_leBytesFixed (k n : Nat) :
    leValue (leBytesFixed k n) = n % 256 ^ k := by
  induction k generalizing n with
  | zero => simp [leBytesFixed, leValue, Nat.mod_one]
  | succ k ih =>
    simp only [leBytesFixed, leValue, List.foldr_cons]
    have hih : leValue (leBytesFixed k (n / 256)) = n / 256 % 256 ^ k := ih (n / 256)
    simp only [leValue] at hih
    rw [hih, pow_succ' (256 : Nat) k, Nat.mod_mul]

theorem leBytesFixed_getLast (k n : Nat) (d : Nat) :
    (leBytesFixed (k + 1) n).getLastD d = n / 256 ^ k % 256 := by
  induction k generalizing n d with
  | zero => simp [leBytesFixed]
  | succ k ih =>
    have hrw : leBytesFixed (k + 1 + 1) n = n % 256 :: leBytesFixed (k + 1) (n / 256) := rfl
    rw [hrw, List.getLastD_cons, ih (n / 256), Nat.div_div_eq_div_mul, pow_succ' (256 : Nat) k]

/-! ## Signed integer byte encoding

`bigIntToBytes` lives in `src/common/utils.ts`, which is not among the
sources under review. -/

/-- Whether `v` is representable as a `k`-byte two's-complement integer. -/
def fitsBytes (k : Nat) (v : Int) : Bool :=
  decide (-((2 : Int) ^ (8 * k - 1)) ≤ v) && decide (v < (2 : Int) ^ (8 * k - 1))

/-- Smallest byte width (searched from `k` upward, with `fuel` attempts left;
falls back to `k + fuel` when none fits). -/
def byteLenAux : Nat → Nat → Int → Nat
  | 0, k, _ => k
  | fuel + 1, k, v => if fitsBytes k v then k else byteLenAux fuel (k + 1) v

/-- Minimal two's-complement byte width of `v` (for `v` in 64-bit range). -/
def byteLen (v : Int) : Nat := byteLenAux 8 1 v

/-- Modelled from the spec: `bigIntToBytes` (`src/common/utils.ts`, not among
the sources under review) encodes a 64-bit signed integer as its minimal
two's-complement little-endian byte string, empty for zero. -/
def bigIntToBytes (v : Int) : List Nat :=
  if v = 0 then []
  else leBytesFixed (byteLen v) (v % (2 : Int) ^ (8 * byteLen v)).toNat

/-- Signed little-endian interpretation of a byte string (empty means zero),
as used by the 64-bit integer reader. -/
def bytesToInt (bs : List Nat) : Int :=
  if bs = [] then 0
  else
    let u : Int := (leValue bs : Nat)
    if 128 ≤ bs.getLastD 0 then u - (2 : Int) ^ (8 * bs.length) else u

theorem fitsBytes_mono (k : Nat) (v : Int) (h : fitsBytes k v = true) :
    fitsBytes (k + 1) v = true := by
  simp only [fitsBytes, Bool.and_eq_true, decide_eq_true_eq] at h ⊢
  have hpow : (2 : Int) ^ (8 * k - 1) ≤ (2 : Int) ^ (8 * (k + 1) - 1) := by
    apply pow_le_pow_right₀ (by norm_num)
    omega
  constructor
  · have := h.1
    omega
  · have := h.2
    omega

theorem byteLenAux_fits (fuel k : Nat) (v : Int) (m : Nat)
    (hk : k ≤ m) (hm : m ≤ k + fuel) (hfit : fitsBytes m v = true) :
    fitsBytes (byteLenAux fuel k v) v = true ∧ byteLenAux fuel k v ≤ m := by
  induction fuel generalizing k with
  | zero =>
    have : k = m := by omega
    subst this
    exact ⟨hfit, le_refl _⟩
  | succ fuel ih =>
    by_cases h : fitsBytes k v = true
    · simp [byteLenAux, h, hk]
    · have hkm : k ≠ m := fun he => h (he ▸ hfit)
      have := ih (k + 1) (by omega) (by omega)
      simp only [byteLenAux, h]
      simp only [Bool.false_eq_true, if_false]
      exact this

theorem byteLen_spec (v : Int) (hlo : -(2 : Int) ^ 63 ≤ v) (hhi : v < (2 : Int) ^ 63) :
    fitsBytes (byteLen v) v = true ∧ 1 ≤ byteLen v ∧ byteLen v ≤ 8 := by
  have h8 : fitsBytes 8 v = true := by
    simp only [fitsBytes, Bool.and_eq_true, decide_eq_true_eq]
    norm_num
    constructor <;> [exact hlo; exact hhi]
  have := byteLenAux_fits 8 1 v 8 (by omega) (by omega) h8
  refine ⟨this.1, ?_, this.2⟩
  unfold byteLen
  have hge : ∀ fuel k, k ≤ byteLenAux fuel k v := by
    intro fuel
    induction fuel with
    | zero => intro k; simp [byteLenAux]
    | succ fuel ih =>
      intro k
      simp only [byteLenAux]
      by_cases h : fitsBytes k v = true
      · simp [h]
      · simp only [h, Bool.false_eq_true, if_false]
        have := ih (k + 1)
        omega
  exact hge 8 1

theorem bigIntToBytes_length_le (v : Int)
    (hlo : -(2 : Int) ^ 63 ≤ v) (hhi : v < (2 : Int) ^ 63) :
    (bigIntToBytes v).length ≤ 8 := by
  unfold bigIntToBytes
  by_cases h : v = 0
  · simp [h]
  · simp only [h, if_false, leBytesFixed_length]
    exact (byteLen_spec v hlo hhi).2.2

theorem bytesToInt_bigIntToBytes (v : Int)
    (hlo : -(2 : Int) ^ 63 ≤ v) (hhi : v < (2 : Int) ^ 63) :
    bytesToInt (bigIntToBytes v) = v := by
  by_cases hz : v = 0
  · simp [hz, bigIntToBytes, bytesToInt]
  obtain ⟨hfit, hk1, _⟩ := byteLen_spec v hlo hhi
  set k := byteLen v with hkdef
  simp only [fitsBytes, Bool.and_eq_true, decide_eq_true_eq] at hfit
  obtain ⟨hf1, hf2⟩ := hfit
  have hm : (0 : Int) < (2 : Int) ^ (8 * k) := by positivity
  set m : Int := (2 : Int) ^ (8 * k) with hmdef
  have hhalf : (2 : Int) ^ (8 * k - 1) * 2 = m := by
    rw [hmdef, ← pow_succ]
    congr 1
    omega
  -- the two's-complement residue n of v
  set n : Nat := (v % m).toNat with hndef
  have hmod_nonneg : 0 ≤ v % m := Int.emod_nonneg v (by positivity)
  have hmod_lt : v % m < m := Int.emod_lt_of_pos v hm
  have hncast : (n : Int) = v % m := by
    rw [hndef, Int.toNat_of_nonneg hmod_nonneg]
  -- case on sign to compute v % m
  have hvmod : (n : Int) = if 0 ≤ v then v else v + m := by
    rw [hncast]
    by_cases hpos : 0 ≤ v
    · simp only [hpos, if_true]
      apply Int.emod_eq_of_lt hpos
      calc v < 2 ^ (8 * k - 1) := hf2
        _ ≤ m := by rw [← hhalf]; nlinarith [pow_pos (show (0:Int) < 2 by norm_num) (8 * k - 1)]
    · simp only [hpos, if_false]
      have h1 : 0 ≤ v + m := by
        have : -(2 : Int) ^ (8 * k - 1) ≥ -m := by
          rw [← hhalf]
          nlinarith [pow_pos (show (0:Int) < 2 by norm_num) (8 * k - 1)]
        omega
      have h2 : v + m < m := by omega
      calc v % m = (v + m) % m := Int.emod_eq_add_self_emod
        _ = v + m := Int.emod_eq_of_lt h1 h2
  -- the byte string
  have hbytes : bigIntToBytes v = leBytesFixed k n := by
    rw [bigIntToBytes, if_neg hz]
  have hlen : (leBytesFixed k n).length = k := leBytesFixed_length k n
  have hne : leBytesFixed k n ≠ [] := by
    intro h
    rw [h] at hlen
    simp at hlen
    omega
  have hn_lt : n < 2 ^ (8 * k) := by
    have : (n : Int) < m := by rw [hncast]; exact hmod_lt
    have hcast : ((2 : Nat) ^ (8 * k) : Int) = m := by push_cast [hmdef]; ring
    omega
  have hval : leValue (leBytesFixed k n) = n := by
    rw [leValue_leBytesFixed]
    exact Nat.mod_eq_of_lt (by
      calc n < 2 ^ (8 * k) := hn_lt
        _ = 256 ^ k := by rw [show (256 : Nat) = 2 ^ 8 by norm_num, ← pow_mul]
    )
  -- the top byte decides the sign
  obtain ⟨k', hk'⟩ : ∃ k', k = k' + 1 := ⟨k - 1, by omega⟩
  have htop : (leBytesFixed k n).getLastD 0 = n / 256 ^ k' % 256 := by
    rw [hk']
    exact leBytesFixed_getLast k' n 0
  have hpow_nat : (256 : Nat) ^ k' = 2 ^ (8 * k - 8) := by
    rw [show (256 : Nat) = 2 ^ 8 by norm_num, ← pow_mul]
    congr 1
    omega
  have hhalf_nat : (2 : Nat) ^ (8 * k - 1) * 2 = 2 ^ (8 * k) := by
    rw [← pow_succ]
    congr 1
    omega
  have hcast_half : ((2 : Nat) ^ (8 * k - 1) : Int) = (2 : Int) ^ (8 * k - 1) := by push_cast; ring
  have hcast_m : ((2 : Nat) ^ (8 * k) : Int) = m := by push_cast [hmdef]; ring
  rw [hbytes, bytesToInt, if_neg hne]
  simp only [hval, hlen, htop]
  by_cases hpos : 0 ≤ v
  · -- positive: n = v < 2^(8k-1), top byte < 128
    have hnv : (n : Int) = v := by rw [hvmod, if_pos hpos]
    have hn_small : n < 2 ^ (8 * k - 1) := by
      have : (n : Int) < (2 : Int) ^ (8 * k - 1) := by rw [hnv]; exact hf2
      omega
    have hdiv : n / 256 ^ k' % 256 < 128 := by
      have hd : n / 2 ^ (8 * k - 8) < 128 := by
        apply Nat.div_lt_of_lt_mul
        calc n < 2 ^ (8 * k - 1) := hn_small
          _ = 2 ^ (8 * k - 8) * 128 := by
            rw [show (128 : Nat) = 2 ^ 7 by norm_num, ← pow_add]
            congr 1
            omega
      rw [hpow_nat]
      calc n / 2 ^ (8 * k - 8) % 256 ≤ n / 2 ^ (8 * k - 8) := Nat.mod_le _ _
        _ < 128 := hd
    rw [if_neg (by omega)]
    exact hnv
  · -- negative: n = v + m ≥ 2^(8k-1), top byte ≥ 128
    have hnv : (n : Int) = v + m := by rw [hvmod, if_neg hpos]
    have hn_big : 2 ^ (8 * k - 1) ≤ n := by
      have h1 : -(m : Int) / 2 ≤ v := by
        have : (2 : Int) ^ (8 * k - 1) = m / 2 := by
          rw [← hhalf]
          omega
        omega
      have : (2 : Int) ^ (8 * k - 1) ≤ (n : Int) := by
        rw [hnv]
        have : m = 2 ^ (8 * k - 1) * 2 := hhalf.symm
        omega
      omega
    have hdiv : 128 ≤ n / 256 ^ k' % 256 := by
      rw [hpow_nat]
      have hlow : 2 ^ (8 * k - 8) * 128 ≤ n := by
        calc 2 ^ (8 * k - 8) * 128 = 2 ^ (8 * k - 1) := by
              rw [show (128 : Nat) = 2 ^ 7 by norm_num, ← pow_add]
              congr 1
              omega
          _ ≤ n := hn_big
      have hhigh : n < 2 ^ (8 * k - 8) * 256 := by
        calc n < 2 ^ (8 * k) := hn_lt
          _ = 2 ^ (8 * k - 8) * 256 := by
            rw [show (256 : Nat) = 2 ^ 8 by norm_num, ← pow_add]
            congr 1
            omega
      have h1 : 128 ≤ n / 2 ^ (8 * k - 8) := Nat.le_div_iff_mul_le (by positivity) |>.mpr (by omega)
      have h2 : n / 2 ^ (8 * k - 8) < 256 := Nat.div_lt_of_lt_mul (by omega)
      rw [Nat.mod_eq_of_lt h2]
      exact h1
    rw [if_pos (by omega)]
    rw [hnv, ← hmdef]
    ring

/-! ## Variable-length integvisers and reader primitives

The reader/writer (`src/vm/utils/reader.ts`, `src/vm/utils/writer.ts`) are
not among the sources under review; the spec treats them as a primitive I/O
capability with the NEO varint wire format (length-prefixed byte strings,
varint counts) and failure on underrun / on exceeding the size cap. -/

/-- Modelled from the spec: the NEO varint encoding used by
`Writer.writeVarUint`. -/
def varUintBytes (n : Nat) : List Nat :=
  if n < 0xfd then [n]
  else if n ≤ 0xffff then 0xfd :: leBytesFixed 2 n
  else if n ≤ 0xffffffff then 0xfe :: leBytesFixed 4 n
  else 0xff :: leBytesFixed 8 n

/-- Modelled from the spec: `Reader.readByte`, failing on underrun. -/
def readByte (bs : List Nat) : Except String (Nat × List Nat) :=
  match bs with
  | [] => .error "read byte: unexpected end of input"
  | b :: rest => .ok (b, rest)

/-- Take `k` bytes from the front, failing on underrun. -/
def readFixed (k : Nat) (bs : List Nat) : Except String (List Nat × List Nat) :=
  if bs.length < k then .error "read bytes: unexpected end of input"
  else .ok (bs.take k, bs.drop k)

/-- Modelled from the spec: `Reader.readVarUInt` (NEO varint). -/
def readVarUInt (bs : List Nat) : Except String (Nat × List Nat) :=
  match bs with
  | [] => .error "read varuint: unexpected end of input"
  | b :: rest =>
    if b < 0xfd then .ok (b, rest)
    else
      let k := if b = 0xfd then 2 else if b = 0xfe then 4 else 8
      match readFixed k rest with
      | .error e => .error e
      | .ok (ds, rest') => .ok (leValue ds, rest')

/-- Modelled from the spec: `Reader.readVarBytes` (varint length, then that
many bytes). -/
def readVarBytes (bs : List Nat) : Except String (List Nat × List Nat) :=
  match readVarUInt bs with
  | .error e => .error e
  | .ok (n, rest) => readFixed n rest

/-- Modelled from the spec: `Reader.readInt64` as used by the Integer branch
of `deserializeStackItemInternal`: reads length-prefixed bytes and interprets
them as a signed 64-bit integer, failing if the byte length exceeds 8. -/
def readInt64 (bs : List Nat) : Except String (Int × List Nat) :=
  match readVarBytes bs with
  | .error e => .error e
  | .ok (pl, rest) =>
    if pl.length > 8 then .error "read int64: byte length exceeds 8"
    else .ok (bytesToInt pl, rest)

/-- Modelled from the spec: `LimitedWriter.writeUint8`; the writer state is
the list of bytes written so far, and any write that would push the
cumulative size beyond `MAX_BYTEARRAY_SIZE` fails. -/
def writeUint8 (w : List Nat) (b : Nat) : Except String (List Nat) :=
  if MAX_BYTEARRAY_SIZE < w.length + 1 then .error "writer: size limit exceeded"
  else .ok (w ++ [b])

/-- Modelled from the spec: `LimitedWriter.writeVarUint`. -/
def writeVarUint (w : List Nat) (n : Nat) : Except String (List Nat) :=
  if MAX_BYTEARRAY_SIZE < w.length + (varUintBytes n).length then
    .error "writer: size limit exceeded"
  else .ok (w ++ varUintBytes n)

/-- Modelled from the spec: `LimitedWriter.writeVarBytes` (varint length then
raw bytes). -/
def writeVarBytes (w : List Nat) (bs : List Nat) : Except String (List Nat) :=
  match writeVarUint w bs.length with
  | .error e => .error e
  | .ok w1 =>
    if MAX_BYTEARRAY_SIZE < w1.length + bs.length then .error "writer: size limit exceeded"
    else .ok (w1 ++ bs)

theorem readFixed_append (pl rest : List Nat) :
    readFixed pl.length (pl ++ rest) = .ok (pl, rest) := by
  unfold readFixed
  rw [if_neg (by simp)]
  simp

theorem varUintBytes_length_pos (n : Nat) : 0 < (varUintBytes n).length := by
  unfold varUintBytes
  split
  · simp
  · split
    · simp
    · split <;> simp

theorem readVarUInt_roundtrip (n : Nat) (rest : List Nat) (hn : n < 2 ^ 64) :
    readVarUInt (varUintBytes n ++ rest) = .ok (n, rest) := by
  have hfix : forall k, readFixed k (leBytesFixed k n ++ rest) = .ok (leBytesFixed k n, rest) := by
    intro k
    have hl := leBytesFixed_length k n
    calc readFixed k (leBytesFixed k n ++ rest)
        = readFixed (leBytesFixed k n).length (leBytesFixed k n ++ rest) := by rw [hl]
      _ = .ok (leBytesFixed k n, rest) := readFixed_append _ _
  by_cases h1 : n < 0xfd
  · simp [varUintBytes, readVarUInt, h1]
  by_cases h2 : n <= 0xffff
  · have hv : varUintBytes n ++ rest = 0xfd :: (leBytesFixed 2 n ++ rest) := by
      simp [varUintBytes, h1, h2]
    rw [hv]
    simp only [readVarUInt]
    norm_num [hfix 2, leValue_leBytesFixed]
    omega
  by_cases h3 : n <= 0xffffffff
  · have hv : varUintBytes n ++ rest = 0xfe :: (leBytesFixed 4 n ++ rest) := by
      simp [varUintBytes, h1, h2, h3]
    rw [hv]
    simp only [readVarUInt]
    norm_num [hfix 4, leValue_leBytesFixed]
    omega
  · have hv : varUintBytes n ++ rest = 0xff :: (leBytesFixed 8 n ++ rest) := by
      simp [varUintBytes, h1, h2, h3]
    rw [hv]
    simp only [readVarUInt]
    norm_num [hfix 8, leValue_leBytesFixed]
    omega

/-! ## Byte-to-string coercion

The serializer's Map branch coerces every key to a JavaScript string via
`Buffer.prototype.toString()` and sorts the strings with the default
comparator of `Array.prototype.sort`, which compares strings by their UTF-16
code units.  Both are platform primitives, modelled here: UTF-8 decoding with
U+FFFD replacement for invalid sequences (one replacement per maximal invalid
prefix, the offending byte restarting the decoder), then encoding of each
code point as one or two UTF-16 code units. -/

/-- Whether `b` is a UTF-8 continuation byte. -/
def isCont (b : Nat) : Bool := 0x80 ≤ b && b ≤ 0xbf

/-- UTF-8 decoding of a byte string into unicode code points, with U+FFFD
replacement, as performed by `Buffer.prototype.toString()`.  The fuel
argument makes the recursion structural; it strictly dominates the length of
the remaining input (every step consumes at least one byte), so
`utf8Decode`, which supplies the input length, never exhausts it. -/
def utf8DecodeGo : Nat → List Nat → List Nat
  | 0, _ => []
  | _ + 1, [] => []
  | f + 1, b :: rest =>
    if b < 0x80 then b :: utf8DecodeGo f rest
    else if b < 0xc2 then 0xfffd :: utf8DecodeGo f rest
    else if b < 0xe0 then
      match rest with
      | [] => [0xfffd]
      | c1 :: rest1 =>
        if isCont c1 then ((b - 0xc0) * 0x40 + (c1 - 0x80)) :: utf8DecodeGo f rest1
        else 0xfffd :: utf8DecodeGo f (c1 :: rest1)
    else if b < 0xf0 then
      match rest with
      | [] => [0xfffd]
      | c1 :: rest1 =>
        if isCont c1 && (b ≠ 0xe0 || 0xa0 ≤ c1) && (b ≠ 0xed || c1 ≤ 0x9f) then
          match rest1 with
          | [] => [0xfffd]
          | c2 :: rest2 =>
            if isCont c2 then
              ((b - 0xe0) * 0x1000 + (c1 - 0x80) * 0x40 + (c2 - 0x80)) :: utf8DecodeGo f rest2
            else 0xfffd :: utf8DecodeGo f (c2 :: rest2)
        else 0xfffd :: utf8DecodeGo f (c1 :: rest1)
    else if b < 0xf5 then
      match rest with
      | [] => [0xfffd]
      | c1 :: rest1 =>
        if isCont c1 && (b ≠ 0xf0 || 0x90 ≤ c1) && (b ≠ 0xf4 || c1 ≤ 0x8f) then
          match rest1 with
          | [] => [0xfffd]
          | c2 :: rest2 =>
            if isCont c2 then
              match rest2 with
              | [] => [0xfffd]
              | c3 :: rest3 =>
                if isCont c3 then
                  ((b - 0xf0) * 0x40000 + (c1 - 0x80) * 0x1000 +
                      (c2 - 0x80) * 0x40 + (c3 - 0x80)) :: utf8DecodeGo f rest3
                else 0xfffd :: utf8DecodeGo f (c3 :: rest3)
            else 0xfffd :: utf8DecodeGo f (c2 :: rest2)
        else 0xfffd :: utf8DecodeGo f (c1 :: rest1)
    else 0xfffd :: utf8DecodeGo f rest

/-- UTF-8 decoding with U+FFFD replacement (fuel instantiated). -/
def utf8Decode (bs : List Nat) : List Nat := utf8DecodeGo bs.length bs

/-- UTF-16 code units of a code point (surrogate pair above U+FFFF). -/
def utf16Units (cp : Nat) : List Nat :=
  if cp < 0x10000 then [cp]
  else [0xd800 + (cp - 0x10000) / 0x400, 0xdc00 + (cp - 0x10000) % 0x400]

/-- Modelled from the spec: `Buffer.prototype.toString()` (a platform
primitive): a JavaScript string is its list of UTF-16 code units. -/
def bufferToString (bs : List Nat) : List Nat :=
  (utf8Decode bs).flatMap utf16Units

/-- Lexicographic comparison of UTF-16 code-unit lists: the order JavaScript
string comparison (and thus the default `Array.prototype.sort` comparator)
uses. -/
def strLe : List Nat → List Nat → Bool
  | [], _ => true
  | _ :: _, [] => false
  | a :: as, b :: bs => if a < b then true else if b < a then false else strLe as bs

theorem strLe_cons_iff (x y : Nat) (xs ys : List Nat) :
    strLe (x :: xs) (y :: ys) = true ↔ x < y ∨ (x = y ∧ strLe xs ys = true) := by
  simp only [strLe]
  by_cases h1 : x < y
  · simp [h1]
  · by_cases h2 : y < x
    · rw [if_neg h1, if_pos h2]
      simp only [Bool.false_eq_true, false_iff]
      intro h
      rcases h with h | ⟨h, _⟩ <;> omega
    · have hxy : x = y := by omega
      simp [h1, h2, hxy]

/-- Propositional form of `strLe`, used as the sorting relation. -/
def StrLeR (s t : List Nat) : Prop := strLe s t = true

instance : DecidableRel StrLeR := fun s t => by
  unfold StrLeR
  infer_instance

instance : IsTotal (List Nat) StrLeR := by
  constructor
  intro a
  induction a with
  | nil => intro b; left; rfl
  | cons x xs ih =>
    intro b
    cases b with
    | nil => right; rfl
    | cons y ys =>
      simp only [StrLeR, strLe_cons_iff]
      rcases Nat.lt_trichotomy x y with h | h | h
      · left; left; exact h
      · rcases ih ys with h2 | h2
        · left; right; exact ⟨h, h2⟩
        · right; right; exact ⟨h.symm, h2⟩
      · right; left; exact h

instance : IsTrans (List Nat) StrLeR := by
  constructor
  intro a
  induction a with
  | nil => intro b c _ _; rfl
  | cons x xs ih =>
    intro b c hab hbc
    cases b with
    | nil => exact absurd hab (by simp [StrLeR, strLe])
    | cons y ys =>
      cases c with
      | nil => exact absurd hbc (by simp [StrLeR, strLe])
      | cons z zs =>
        simp only [StrLeR, strLe_cons_iff] at hab hbc ⊢
        rcases hab with h1 | ⟨h1, h1s⟩
        · rcases hbc with h2 | ⟨h2, _⟩
          · left; omega
          · left; omega
        · rcases hbc with h2 | ⟨h2, h2s⟩
          · left; omega
          · right
            exact ⟨by omega, ih ys zs h1s h2s⟩

instance : IsAntisymm (List Nat) StrLeR := by
  constructor
  intro a
  induction a with
  | nil =>
    intro b _ hba
    cases b with
    | nil => rfl
    | cons y ys => exact absurd hba (by simp [StrLeR, strLe])
  | cons x xs ih =>
    intro b hab hba
    cases b with
    | nil => exact absurd hab (by simp [StrLeR, strLe])
    | cons y ys =>
      simp only [StrLeR, strLe_cons_iff] at hab hba
      rcases hab with h1 | ⟨h1, h1s⟩
      · rcases hba with h2 | ⟨h2, _⟩
        · omega
        · omega
      · rcases hba with h2 | ⟨h2, h2s⟩
        · omega
        · rw [h1, ih ys h1s h2s]

/-! ## Stack items (tree embedding) and the binary codec

`runtime.ts` dispatches on the variant of a `StackItem`; values built from
the variant grammar are trees (every container is a fresh object).  Type
tags: `IntegerType.id = 0x02` and `BooleanType.id = 0x01` are in the sources;
the remaining ids (`ByteArrayType.id = 0x00`, `ArrayType.id = 0x80`,
`StructType.id = 0x81`, `MapType.id = 0x82`) are modelled from the spec's
tag table, their defining modules not being among the sources under
review. -/

inductive SI where
  | byteArr (bs : List Nat)
  | boolean (b : Bool)
  | integer (v : Int)
  | arr (es : List SI)
  | struct (es : List SI)
  | map (es : List (SI × SI))
  | interop

/-- Byte form of a map key, as computed by `k.getByteArray()` in the key
loop of the Map branch (only ByteArray and Integer keys reach this point;
other variants are given a junk value, the loop having rejected them). -/
def keyBytesOf : SI → List Nat
  | .byteArr bs => bs
  | .integer n => bigIntToBytes n
  | _ => []

/-- String coercion of a map key (`ba.toString()` in the source). -/
def keyStrOf (k : SI) : List Nat := bufferToString (keyBytesOf k)

/-- String coercion of a map entry's key. -/
def keyStrEntry (e : SI × SI) : List Nat := keyStrOf e.1

/-- The entry recovered from a key string during emission: `keyMap` is a
JavaScript `Map` filled with `keyMap.set(key, k)` in iteration order, so a
lookup yields the last entry whose key has that string; `mp.get(key)` then
yields that same entry's value (object-identity lookup).  The default is the
source's non-null assertion `keyMap.get(v)!`, unreachable because every
sorted string came from the key loop. -/
def keyMapGet (s : List Nat) (es : List (SI × SI)) : SI × SI :=
  (es.filter (fun e => keyStrEntry e == s)).getLastD (SI.byteArr [], SI.byteArr [])

/-- The key loop of the Map branch of `serializeStackItemInternal`: validates
each key (ByteArray or Integer, non-empty string form) and collects the key
strings in iteration order (`unsortKey`). -/
def collectKeys : List (SI × SI) → Except String (List (List Nat))
  | [] => .ok []
  | e :: es =>
    match e.1 with
    | .byteArr _ | .integer _ =>
      if keyStrOf e.1 = [] then .error "Serialize Map error: invalid key type"
      else
        match collectKeys es with
        | .error er => .error er
        | .ok ss => .ok (keyStrOf e.1 :: ss)
    | _ => .error "Unsupport map key type."

/-- Wrapping of a caught error, as by `new Error(prefix + e)` in the source:
JavaScript's string interpolation of an `Error` prepends `Error: ` to its
message. -/
def wrapErr {α : Type} (pre : String) (x : Except String α) : Except String α :=
  match x with
  | .error e => .error (pre ++ "Error: " ++ e)
  | .ok a => .ok a

/-- The element loop of the Array/Struct branches (`for (const v of a)`),
with the recursive serializer passed as a parameter. -/
def serializeList (ser : SI → List Nat → Except String (List Nat)) :
    List SI → List Nat → Except String (List Nat)
  | [], w => .ok w
  | v :: vs, w =>
    match ser v w with
    | .error e => .error e
    | .ok w1 => serializeList ser vs w1

/-- The emission loop of the Map branch (`for (const v of unsortKey)`): for
each sorted key string, write the recovered key then its value. -/
def serializeMapEntries (ser : SI → List Nat → Except String (List Nat))
    (es : List (SI × SI)) : List (List Nat) → List Nat → Except String (List Nat)
  | [], w => .ok w
  | s :: ss, w =>
    match ser (keyMapGet s es).1 w with
    | .error e1 => .error e1
    | .ok w1 =>
      match ser (keyMapGet s es).2 w1 with
      | .error e2 => .error e2
      | .ok w2 => serializeMapEntries ser es ss w2

/-- `serializeStackItemInternal` of `runtime.ts`.  The fuel argument (first)
makes the recursion structural; the entry point `serializeStackItem` supplies
`MAX_STRUCT_DEPTH + 2`, which the guard it runs first makes sufficient. -/
def serializeStackItemInternal : Nat → SI → List Nat → Except String (List Nat)
  | 0, _, _ => .error "serialize: fuel exhausted"
  | f + 1, v, w =>
    match v with
    | .byteArr bs =>
      wrapErr "Serialize ByteArray stackItems error: "
        (match writeUint8 w 0x00 with
         | .error e => .error e
         | .ok w1 => writeVarBytes w1 bs)
    | .boolean b =>
      wrapErr "Serialize Boolean stackItems error: "
        (match writeUint8 w 0x01 with
         | .error e => .error e
         | .ok w1 => writeUint8 w1 (if b then 1 else 0))
    | .integer n =>
      wrapErr "Serialize Integer stackItems error: "
        (match writeUint8 w 0x02 with
         | .error e => .error e
         | .ok w1 => writeVarBytes w1 (bigIntToBytes n))
    | .arr es =>
      wrapErr "Serialize Array stackItems error: "
        (match writeUint8 w 0x80 with
         | .error e => .error e
         | .ok w1 =>
           match writeVarUint w1 es.length with
           | .error e => .error e
           | .ok w2 => serializeList (serializeStackItemInternal f) es w2)
    | .struct es =>
      wrapErr "Serialize Struct stackItems error: "
        (match writeUint8 w 0x81 with
         | .error e => .error e
         | .ok w1 =>
           match writeVarUint w1 es.length with
           | .error e => .error e
           | .ok w2 => serializeList (serializeStackItemInternal f) es w2)
    | .map es =>
      match wrapErr "Serialize Struct stackItems error: "
          (match writeUint8 w 0x82 with
           | .error e => .error e
           | .ok w0 =>
             match writeVarUint w0 es.length with
             | .error e => .error e
             | .ok w1 =>
               match collectKeys es with
               | .error e => .error e
               | .ok ss => .ok (w1, ss)) with
      | .error e => .error e
      | .ok (w1, ss) =>
        serializeMapEntries (serializeStackItemInternal f) es (List.insertionSort StrLeR ss) w1
    | .interop => .error "unknown type"

/-- `circularRefAndDepthDetectionInternal` of `runtime.ts`, specialized to
tree values (the variant-grammar values of the round-trip property).  On a
tree every container is a fresh object, so the identity-keyed `visited` map
can never report a hit (an ancestor is never the same object as a
descendant); it is therefore dropped here and retained in the heap embedding
below.  The `gas` argument stands for `MAX_STRUCT_DEPTH + 1 - depth`: the
source checks `depth > MAX_STRUCT_DEPTH` on entry of every call, which is
exactly `gas = 0`. -/
def circularRefAndDepthDetectionTreeAux : Nat → SI → Bool
  | 0, _ => true
  | gas + 1, v =>
    match v with
    | .arr es =>
      if es.isEmpty then false
      else es.any (circularRefAndDepthDetectionTreeAux gas)
    | .struct es =>
      if es.isEmpty then false
      else es.any (circularRefAndDepthDetectionTreeAux gas)
    | .map es =>
      es.any (fun e =>
        circularRefAndDepthDetectionTreeAux gas e.1 ||
        circularRefAndDepthDetectionTreeAux gas e.2)
    | _ => false

/-- `circularRefAndDepthDetection` of `runtime.ts` on tree values
(depth 0, i.e. gas `MAX_STRUCT_DEPTH + 1`). -/
def circularRefAndDepthDetectionTree (v : SI) : Bool :=
  circularRefAndDepthDetectionTreeAux (MAX_STRUCT_DEPTH + 1) v

/-- `serializeStackItem` of `runtime.ts` (tree values): run the cycle/depth
guard, then encode through a `LimitedWriter` capped at
`MAX_BYTEARRAY_SIZE`. -/
def serializeStackItem (item : SI) : Except String (List Nat) :=
  if circularRefAndDepthDetectionTree item then
    .error "runtime serialize: can not serialize circular reference data"
  else serializeStackItemInternal (MAX_STRUCT_DEPTH + 2) item []

/-- The element loop of the Array/Struct branch of the deserializer
(`for (let i = 0; i < count; i++)`), decoder passed as parameter. -/
def decodeN (dec : List Nat → Except String (SI × List Nat)) :
    Nat → List Nat → Except String (List SI × List Nat)
  | 0, bs => .ok ([], bs)
  | n + 1, bs =>
    match dec bs with
    | .error e => .error e
    | .ok (x, r) =>
      match decodeN dec n r with
      | .error e => .error e
      | .ok (xs, r2) => .ok (x :: xs, r2)

/-- The entry loop of the Map branch of the deserializer: key then value,
inserted in decode order (fresh objects, so `m.set` never overwrites). -/
def decodePairs (dec : List Nat → Except String (SI × List Nat)) :
    Nat → List Nat → Except String (List (SI × SI) × List Nat)
  | 0, bs => .ok ([], bs)
  | n + 1, bs =>
    match dec bs with
    | .error e => .error e
    | .ok (k, r1) =>
      match dec r1 with
      | .error e => .error e
      | .ok (v, r2) =>
        match decodePairs dec n r2 with
        | .error e => .error e
        | .ok (ps, r3) => .ok ((k, v) :: ps, r3)

/-- `deserializeStackItemInternal` of `runtime.ts`.  The fuel argument makes
the recursion structural; since every recursive call first consumes the tag
byte, recursion depth never exceeds the input length, so the
`input length + 1` supplied by `deserializeStackItem` is never exhausted. -/
def deserializeStackItemInternal : Nat → List Nat → Except String (SI × List Nat)
  | 0, _ => .error "Deserialize error: Error: fuel exhausted"
  | f + 1, bs =>
    wrapErr "Deserialize error: "
      (match readByte bs with
       | .error e => .error e
       | .ok (t, bs1) =>
         if t = 0x00 then
           wrapErr "Deserialize stackItems ByteArray error: "
             (match readVarBytes bs1 with
              | .error e => .error e
              | .ok (b, r) => .ok (SI.byteArr b, r))
         else if t = 0x01 then
           wrapErr "Deserialize stackItems Boolean error: "
             (match readByte bs1 with
              | .error e => .error e
              | .ok (b, r) => .ok (SI.boolean (decide (b > 0)), r))
         else if t = 0x02 then
           wrapErr "Deserialize stackItems Integer error: "
             (match readInt64 bs1 with
              | .error e => .error e
              | .ok (n, r) => .ok (SI.integer n, r))
         else if t = 0x80 ∨ t = 0x81 then
           wrapErr "Deserialize stackItems error: "
             (match readVarUInt bs1 with
              | .error e => .error e
              | .ok (count, r) =>
                match decodeN (deserializeStackItemInternal f) count r with
                | .error e => .error e
                | .ok (items, r2) =>
                  if t = 0x81 then .ok (SI.struct items, r2) else .ok (SI.arr items, r2))
         else if t = 0x82 then
           wrapErr "Deserialize stackItems map error: "
             (match readVarUInt bs1 with
              | .error e => .error e
              | .ok (count, r) =>
                match decodePairs (deserializeStackItemInternal f) count r with
                | .error e => .error e
                | .ok (prs, r2) => .ok (SI.map prs, r2))
         else .error "unknown type")

/-- `deserializeStackItem` of `runtime.ts`: decode one item from the front of
the buffer (trailing bytes are ignored by the source as well). -/
def deserializeStackItem (data : List Nat) : Except String SI :=
  match deserializeStackItemInternal (data.length + 1) data with
  | .error e => .error e
  | .ok (item, _) => .ok item

/-! ## Heap embedding and the cycle/depth guard

`circularRefAndDepthDetectionInternal` keys its `visited` map on the
identity of a container's payload (`value.getArray()` etc.), which the tree
embedding cannot express for shared or cyclic structures.  Nodes are `Nat`
ids into a heap; the payload of a container is identified with its node. -/

inductive Cell where
  | byteArr (bs : List Nat)
  | boolean (b : Bool)
  | integer (v : Int)
  | arr (elems : List Nat)
  | struct (elems : List Nat)
  | map (entries : List (Nat × Nat))
  | interop

/-- A heap of stack items; node `i` is `h.getD i .interop` (ids out of range
are scalars, irrelevant for well-formed heaps). -/
def Heap := List Cell

/-- The cell of node `v`. -/
def cellAt (h : Heap) (v : Nat) : Cell := List.getD h v Cell.interop

/-- The child nodes the guard descends into: elements of an Array/Struct,
keys and values of a Map (the guard checks both), nothing for scalars. -/
def childNodes : Cell → List Nat
  | .arr es => es
  | .struct es => es
  | .map es => es.flatMap (fun e => [e.1, e.2])
  | _ => []

/-- `circularRefAndDepthDetectionInternal` of `runtime.ts`, with the depth
counter re-expressed as remaining gas: the source checks
`depth > MAX_STRUCT_DEPTH` on entry of every call, which under
`gas = MAX_STRUCT_DEPTH + 1 - depth` is exactly `gas = 0`, and each
recursive call passes `depth + 1`, i.e. `gas - 1`.  The functional `visited`
argument passed to the children is the source's `visited.set` paired with
the `visited.delete` on unwind (siblings receive the same extended set, and
the caller's own set is untouched).  Note the Map branch has no empty-map
short-circuit in the source, and its identity check runs before the entry
loop. -/
def guardAux (h : Heap) : Nat → Nat → List Nat → Bool
  | 0, _, _ => true
  | gas + 1, v, visited =>
    match cellAt h v with
    | .arr es =>
      if es.isEmpty then false
      else if v ∈ visited then true
      else es.any (fun c => guardAux h gas c (v :: visited))
    | .struct es =>
      if es.isEmpty then false
      else if v ∈ visited then true
      else es.any (fun c => guardAux h gas c (v :: visited))
    | .map es =>
      if v ∈ visited then true
      else es.any (fun e =>
        guardAux h gas e.1 (v :: visited) || guardAux h gas e.2 (v :: visited))
    | _ => false

/-- `circularRefAndDepthDetectionInternal(value, visited, depth)` of
`runtime.ts` (heap embedding). -/
def circularRefAndDepthDetectionInternal (h : Heap) (v : Nat) (visited : List Nat)
    (depth : Nat) : Bool :=
  guardAux h (MAX_STRUCT_DEPTH + 1 - depth) v visited

/-- `circularRefAndDepthDetection(value)` of `runtime.ts`: empty visited set,
depth 0. -/
def circularRefAndDepthDetection (h : Heap) (v : Nat) : Bool :=
  circularRefAndDepthDetectionInternal h v [] 0

/-- The element loop of the heap serializer. -/
def serializeListH (ser : Nat → List Nat → Except String (List Nat)) :
    List Nat → List Nat → Except String (List Nat)
  | [], w => .ok w
  | v :: vs, w =>
    match ser v w with
    | .error e => .error e
    | .ok w1 => serializeListH ser vs w1

/-- Byte form of a map key node (heap embedding). -/
def keyBytesOfH (h : Heap) (k : Nat) : List Nat :=
  match cellAt h k with
  | .byteArr bs => bs
  | .integer n => bigIntToBytes n
  | _ => []

/-- String coercion of a map key node (heap embedding). -/
def keyStrOfH (h : Heap) (k : Nat) : List Nat := bufferToString (keyBytesOfH h k)

/-- Key-string lookup of the emission loop (heap embedding). -/
def keyMapGetH (h : Heap) (s : List Nat) (es : List (Nat × Nat)) : Nat × Nat :=
  (es.filter (fun e => keyStrOfH h e.1 == s)).getLastD (0, 0)

/-- The key loop of the Map branch (heap embedding). -/
def collectKeysH (h : Heap) : List (Nat × Nat) → Except String (List (List Nat))
  | [] => .ok []
  | e :: es =>
    match cellAt h e.1 with
    | .byteArr _ | .integer _ =>
      if keyStrOfH h e.1 = [] then .error "Serialize Map error: invalid key type"
      else
        match collectKeysH h es with
        | .error er => .error er
        | .ok ss => .ok (keyStrOfH h e.1 :: ss)
    | _ => .error "Unsupport map key type."

/-- The emission loop of the Map branch (heap embedding). -/
def serializeMapEntriesH (ser : Nat → List Nat → Except String (List Nat))
    (h : Heap) (es : List (Nat × Nat)) :
    List (List Nat) → List Nat → Except String (List Nat)
  | [], w => .ok w
  | s :: ss, w =>
    match ser (keyMapGetH h s es).1 w with
    | .error e1 => .error e1
    | .ok w1 =>
      match ser (keyMapGetH h s es).2 w1 with
      | .error e2 => .error e2
      | .ok w2 => serializeMapEntriesH ser h es ss w2

/-- `serializeStackItemInternal` of `runtime.ts`, heap embedding (same
structure as the tree version, on cells). -/
def serializeStackItemInternalH (h : Heap) : Nat → Nat → List Nat → Except String (List Nat)
  | 0, _, _ => .error "serialize: fuel exhausted"
  | f + 1, v, w =>
    match cellAt h v with
    | .byteArr bs =>
      wrapErr "Serialize ByteArray stackItems error: "
        (match writeUint8 w 0x00 with
         | .error e => .error e
         | .ok w1 => writeVarBytes w1 bs)
    | .boolean b =>
      wrapErr "Serialize Boolean stackItems error: "
        (match writeUint8 w 0x01 with
         | .error e => .error e
         | .ok w1 => writeUint8 w1 (if b then 1 else 0))
    | .integer n =>
      wrapErr "Serialize Integer stackItems error: "
        (match writeUint8 w 0x02 with
         | .error e => .error e
         | .ok w1 => writeVarBytes w1 (bigIntToBytes n))
    | .arr es =>
      wrapErr "Serialize Array stackItems error: "
        (match writeUint8 w 0x80 with
         | .error e => .error e
         | .ok w1 =>
           match writeVarUint w1 es.length with
           | .error e => .error e
           | .ok w2 => serializeListH (serializeStackItemInternalH h f) es w2)
    | .struct es =>
      wrapErr "Serialize Struct stackItems error: "
        (match writeUint8 w 0x81 with
         | .error e => .error e
         | .ok w1 =>
           match writeVarUint w1 es.length with
           | .error e => .error e
           | .ok w2 => serializeListH (serializeStackItemInternalH h f) es w2)
    | .map es =>
      match wrapErr "Serialize Struct stackItems error: "
          (match writeUint8 w 0x82 with
           | .error e => .error e
           | .ok w0 =>
             match writeVarUint w0 es.length with
             | .error e => .error e
             | .ok w1 =>
               match collectKeysH h es with
               | .error e => .error e
               | .ok ss => .ok (w1, ss)) with
      | .error e => .error e
      | .ok (w1, ss) =>
        serializeMapEntriesH (serializeStackItemInternalH h f) h es
          (List.insertionSort StrLeR ss) w1
    | .interop => .error "unknown type"

/-- `serializeStackItem` of `runtime.ts`, heap embedding. -/
def serializeStackItemH (h : Heap) (v : Nat) : Except String (List Nat) :=
  if circularRefAndDepthDetection h v then
    .error "runtime serialize: can not serialize circular reference data"
  else serializeStackItemInternalH h (MAX_STRUCT_DEPTH + 2) v []

/-- `isPathFrom h v p`: `p` is a chain of container-child steps starting at
`v` (each element is a child of the previous node). -/
def isPathFrom (h : Heap) (v : Nat) : List Nat → Bool
  | [] => true
  | x :: p => decide (x ∈ childNodes (cellAt h v)) && isPathFrom h x p

/-- End point of a path starting at `v`. -/
def pathEnd (v : Nat) (p : List Nat) : Nat := p.getLastD v

/-! ## Guard lemmas: paths, cycles and depth -/

theorem isPathFrom_append (h : Heap) (v : Nat) (p q : List Nat) :
    isPathFrom h v (p ++ q) = (isPathFrom h v p && isPathFrom h (pathEnd v p) q) := by
  induction p generalizing v with
  | nil => simp [isPathFrom, pathEnd]
  | cons x p ih =>
    have hpe : pathEnd v (x :: p) = pathEnd x p := List.getLastD_cons v x p
    simp only [List.cons_append, isPathFrom, List.append_eq, hpe, ih x, Bool.and_assoc]

theorem pathEnd_append (v : Nat) (p q : List Nat) (_hq : q ≠ []) :
    pathEnd v (p ++ q) = pathEnd (pathEnd v p) q := by
  induction p generalizing v with
  | nil => simp [pathEnd]
  | cons x p ih =>
    simp only [List.cons_append, pathEnd, List.getLastD_cons] at ih ⊢
    exact ih x

/-- `m` concatenated copies of `p`. -/
def repeatPath : Nat → List Nat → List Nat
  | 0, _ => []
  | m + 1, p => p ++ repeatPath m p

theorem repeatPath_length (m : Nat) (p : List Nat) :
    (repeatPath m p).length = m * p.length := by
  induction m with
  | zero => simp [repeatPath]
  | succ m ih => simp [repeatPath, ih]; ring

theorem repeatPath_isPath (h : Heap) (v : Nat) (p : List Nat) (m : Nat)
    (hp : isPathFrom h v p = true) (hcyc : pathEnd v p = v) :
    isPathFrom h v (repeatPath m p) = true := by
  induction m with
  | zero => simp [repeatPath, isPathFrom]
  | succ m ih =>
    rw [repeatPath, isPathFrom_append, hcyc]
    simp [hp, ih]

theorem guardAux_false_path_bound (h : Heap) (gas : Nat) :
    ∀ v visited p, guardAux h gas v visited = false →
      isPathFrom h v p = true → p.length < gas := by
  induction gas with
  | zero =>
    intro v visited p hguard _
    simp [guardAux] at hguard
  | succ gas ih =>
    intro v visited p hguard hpath
    cases p with
    | nil => simp
    | cons x q =>
      simp only [isPathFrom, Bool.and_eq_true, decide_eq_true_eq] at hpath
      obtain ⟨hx, hq⟩ := hpath
      have hchild : guardAux h gas x (v :: visited) = false := by
        rcases hc : cellAt h v with bs | b | n | es | es | es | _ <;>
          rw [hc] at hx <;> simp only [childNodes] at hx
        · simp at hx
        · simp at hx
        · simp at hx
        · -- array
          simp only [guardAux, hc] at hguard
          rcases hes : es.isEmpty with _ | _
          · rw [hes] at hguard
            simp only [Bool.false_eq_true, if_false] at hguard
            by_cases hv : v ∈ visited
            · simp [hv] at hguard
            · simp only [hv, if_false] at hguard
              rw [List.any_eq_false] at hguard
              simpa using hguard x hx
          · rw [List.isEmpty_iff] at hes
            subst hes
            simp at hx
        · -- struct
          simp only [guardAux, hc] at hguard
          rcases hes : es.isEmpty with _ | _
          · rw [hes] at hguard
            simp only [Bool.false_eq_true, if_false] at hguard
            by_cases hv : v ∈ visited
            · simp [hv] at hguard
            · simp only [hv, if_false] at hguard
              rw [List.any_eq_false] at hguard
              simpa using hguard x hx
          · rw [List.isEmpty_iff] at hes
            subst hes
            simp at hx
        · -- map
          simp only [guardAux, hc] at hguard
          by_cases hv : v ∈ visited
          · simp [hv] at hguard
          · simp only [hv, if_false] at hguard
            rw [List.any_eq_false] at hguard
            rw [List.mem_flatMap] at hx
            obtain ⟨e, he, hxe⟩ := hx
            have := hguard e he
            simp only [Bool.or_eq_true, not_or] at this
            simp only [List.mem_cons, List.mem_singleton] at hxe
            rcases hxe with rfl | rfl | hx0
            · simpa using this.1
            · simpa using this.2
            · simp at hx0
        · simp at hx
      have := ih x (v :: visited) q hchild hq
      simp only [List.length_cons]
      omega

theorem cycle_unbounded (h : Heap) (v : Nat) (gas : Nat) (p : List Nat)
    (hbound : ∀ q, isPathFrom h v q = true → q.length < gas)
    (hne : p ≠ []) (hp : isPathFrom h v p = true) (hcyc : pathEnd v p = v) : False := by
  have hrep := repeatPath_isPath h v p gas hp hcyc
  have hlt := hbound _ hrep
  rw [repeatPath_length] at hlt
  have hlen : 0 < p.length := List.length_pos.mpr hne
  have : gas ≤ gas * p.length := Nat.le_mul_of_pos_right _ hlen
  omega

theorem guardAux_false_of_bounded (h : Heap) (gas : Nat) :
    ∀ v visited,
      (∀ p, isPathFrom h v p = true → p.length < gas) →
      (∀ p, isPathFrom h v p = true → pathEnd v p ∉ visited) →
      guardAux h gas v visited = false := by
  induction gas with
  | zero =>
    intro v visited h1 _
    have := h1 [] (by simp [isPathFrom])
    simp at this
  | succ gas ih =>
    intro v visited h1 h2
    have hv : v ∉ visited := by
      have := h2 [] (by simp [isPathFrom])
      simpa [pathEnd] using this
    have hchild : ∀ c, c ∈ childNodes (cellAt h v) →
        guardAux h gas c (v :: visited) = false := by
      intro c hc
      apply ih
      · intro q hq
        have hp : isPathFrom h v (c :: q) = true := by
          simp [isPathFrom, hc, hq]
        have := h1 _ hp
        simp only [List.length_cons] at this
        omega
      · intro q hq
        have hp : isPathFrom h v (c :: q) = true := by
          simp [isPathFrom, hc, hq]
        have hend : pathEnd v (c :: q) = pathEnd c q := List.getLastD_cons v c q
        intro hmem
        rcases List.mem_cons.mp hmem with heq | hmem2
        · exact cycle_unbounded h v (gas + 1) (c :: q) h1 (by simp)
            hp (by rw [hend, heq])
        · exact h2 (c :: q) hp (by rw [hend]; exact hmem2)
    rcases hcell : cellAt h v with bs | b | n | es | es | es | _ <;>
      simp only [guardAux, hcell]
    · -- array
      by_cases hes : es.isEmpty
      · simp [hes]
      · simp only [Bool.not_eq_true] at hes
        rw [hes]
        simp only [Bool.false_eq_true, if_false]
        rw [if_neg hv, List.any_eq_false]
        intro c hc
        have := hchild c (by rw [hcell]; exact hc)
        simp [this]
    · -- struct
      by_cases hes : es.isEmpty
      · simp [hes]
      · simp only [Bool.not_eq_true] at hes
        rw [hes]
        simp only [Bool.false_eq_true, if_false]
        rw [if_neg hv, List.any_eq_false]
        intro c hc
        have := hchild c (by rw [hcell]; exact hc)
        simp [this]
    · -- map
      rw [if_neg hv, List.any_eq_false]
      intro e he
      have h1c := hchild e.1 (by
        rw [hcell]
        simp only [childNodes, List.mem_flatMap]
        exact ⟨e, he, by simp⟩)
      have h2c := hchild e.2 (by
        rw [hcell]
        simp only [childNodes, List.mem_flatMap]
        exact ⟨e, he, by simp⟩)
      simp [h1c, h2c]

/-! ## Coercions and equality (`IntegerType.equals`, `BooleanType.equals`)

`getBigInteger`/`getByteArray` for Integer and Boolean are taken from
`vm/types/integer.ts` and `vm/types/boolean.ts` (in the sources); for the
other variants they are modelled from the spec (`vm/types/byteArray.ts` etc.
are not among the sources): ByteArray yields its bytes, and its big-integer
coercion fails when not representable as a signed 64-bit integer (more than
8 bytes); container and interop variants fail both coercions with
`UnsupportedCoercion` errors. -/

def getBigInteger : SI → Except String Int
  | .integer n => .ok n
  | .boolean b => .ok (if b then 1 else 0)
  | .byteArr bs =>
    if bs.length > 8 then .error "Not support bytearray to big integer"
    else .ok (bytesToInt bs)
  | .arr _ => .error "Not support array to big integer"
  | .struct _ => .error "Not support struct to big integer"
  | .map _ => .error "Not support map to big integer"
  | .interop => .error "Not support interop to big integer"

def getByteArray : SI → Except String (List Nat)
  | .byteArr bs => .ok bs
  | .boolean b => .ok [if b then 1 else 0]
  | .integer n => .ok (bigIntToBytes n)
  | .arr _ => .error "Not support array to bytearray"
  | .struct _ => .error "Not support struct to bytearray"
  | .map _ => .error "Not support map to bytearray"
  | .interop => .error "Not support interop to bytearray"

/-- `IntegerType.equals(other)` from `vm/types/integer.ts` for distinct,
defined operands: try `other.getBigInteger()` and compare numerically on
success; on coercion failure compare `other.getByteArray()` with this
value's own byte form (a failure of that second coercion propagates).  The
`this === other` fast path of the source is sound for the embedding: on the
same operand both comparisons trivially succeed with `true`. -/
def integerTypeEquals (v : Int) (other : SI) : Except String Bool :=
  match getBigInteger other with
  | .ok w => .ok (decide (v = w))
  | .error _ =>
    match getByteArray other with
    | .ok b => .ok (decide (b = bigIntToBytes v))
    | .error e => .error e

/-- `BooleanType.equals(other)` from `vm/types/boolean.ts` for distinct
operands: compare `other.getByteArray()` with this value's single-byte form;
any coercion failure yields `false` (the `catch` returns `false`). -/
def booleanTypeEquals (b : Bool) (other : SI) : Bool :=
  match getByteArray other with
  | .ok bs => decide ([if b then 1 else 0] = bs)
  | .error _ => false

/-! ## Well-formed values and structural equality -/

/-- A key the Map branch of the serializer accepts: ByteArray or Integer
variant whose string coercion is non-empty. -/
def ValidKey (k : SI) : Prop :=
  (match k with | .byteArr _ => True | .integer _ => True | _ => False) ∧ keyStrOf k ≠ []

/-- Values of the variant grammar on which the codec round-trips: no
Interop, integers in the signed 64-bit range of `Long` (an invariant of
`IntegerType`), and every Map with serializable keys whose string coercions
are pairwise distinct within that map. -/
def WFv : SI → Prop
  | .byteArr _ => True
  | .boolean _ => True
  | .integer n => -(2 : Int) ^ 63 ≤ n ∧ n < (2 : Int) ^ 63
  | .arr es => ∀ v ∈ es, WFv v
  | .struct es => ∀ v ∈ es, WFv v
  | .map es =>
    (∀ e ∈ es, WFv e.1 ∧ WFv e.2) ∧ (∀ e ∈ es, ValidKey e.1) ∧
      (es.map keyStrEntry).Nodup
  | .interop => False
termination_by v => sizeOf v
decreasing_by
  · have := List.sizeOf_lt_of_mem (by assumption : v ∈ es)
    simp only [SI.arr.sizeOf_spec]
    omega
  · have := List.sizeOf_lt_of_mem (by assumption : v ∈ es)
    simp only [SI.struct.sizeOf_spec]
    omega
  · have := List.sizeOf_lt_of_mem (by assumption : e ∈ es)
    have h2 : sizeOf e.1 < sizeOf e := by
      rcases e with ⟨a, b⟩
      simp only [Prod.mk.sizeOf_spec]
      omega
    simp only [SI.map.sizeOf_spec]
    omega
  · have := List.sizeOf_lt_of_mem (by assumption : e ∈ es)
    have h2 : sizeOf e.2 < sizeOf e := by
      rcases e with ⟨a, b⟩
      simp only [Prod.mk.sizeOf_spec]
      omega
    simp only [SI.map.sizeOf_spec]
    omega

/-- Structural equality of the round-trip property: same variant and payload
for scalars, element-wise and order-preserving for Array/Struct, same
key/value pairs up to reordering for Map. -/
def StructEq : SI → SI → Prop
  | .byteArr a, .byteArr b => a = b
  | .boolean a, .boolean b => a = b
  | .integer a, .integer b => a = b
  | .arr es1, .arr es2 =>
    es1.length = es2.length ∧ ∀ p ∈ es1.zip es2, StructEq p.1 p.2
  | .struct es1, .struct es2 =>
    es1.length = es2.length ∧ ∀ p ∈ es1.zip es2, StructEq p.1 p.2
  | .map es1, .map es2 =>
    ∃ es2', es2'.Perm es2 ∧ es1.length = es2'.length ∧
      ∀ p ∈ es1.zip es2', StructEq p.1.1 p.2.1 ∧ StructEq p.1.2 p.2.2
  | .interop, .interop => True
  | _, _ => False
termination_by s1 _s2 => sizeOf s1
decreasing_by
  · have := List.sizeOf_lt_of_mem (List.of_mem_zip (by assumption : p ∈ es1.zip es2)).1
    simp only [SI.arr.sizeOf_spec]
    omega
  · have := List.sizeOf_lt_of_mem (List.of_mem_zip (by assumption : p ∈ es1.zip es2)).1
    simp only [SI.struct.sizeOf_spec]
    omega
  · have hm := List.sizeOf_lt_of_mem (List.of_mem_zip (by assumption : p ∈ es1.zip es2')).1
    have h2 : sizeOf p.1.1 < sizeOf p.1 := by
      rcases p with ⟨⟨a, b⟩, c⟩
      simp only [Prod.mk.sizeOf_spec]
      omega
    simp only [SI.map.sizeOf_spec]
    omega
  · have hm := List.sizeOf_lt_of_mem (List.of_mem_zip (by assumption : p ∈ es1.zip es2')).1
    have h2 : sizeOf p.1.2 < sizeOf p.1 := by
      rcases p with ⟨⟨a, b⟩, c⟩
      simp only [Prod.mk.sizeOf_spec]
      omega
    simp only [SI.map.sizeOf_spec]
    omega

/-! ## Round-trip machinery -/

theorem wrapErr_ok {α : Type} (pre : String) (x : Except String α) (a : α) :
    wrapErr pre x = .ok a ↔ x = .ok a := by
  cases x <;> simp [wrapErr]

theorem writeUint8_ok (w : List Nat) (b : Nat) (w' : List Nat)
    (h : writeUint8 w b = .ok w') :
    w' = w ++ [b] ∧ w'.length ≤ MAX_BYTEARRAY_SIZE := by
  unfold writeUint8 at h
  by_cases hc : MAX_BYTEARRAY_SIZE < w.length + 1
  · rw [if_pos hc] at h
    exact absurd h (by simp)
  · rw [if_neg hc] at h
    have hw : w ++ [b] = w' := by simpa using h
    subst hw
    refine ⟨rfl, ?_⟩
    simp only [List.length_append, List.length_cons, List.length_nil]
    omega

theorem writeVarUint_ok (w : List Nat) (n : Nat) (w' : List Nat)
    (h : writeVarUint w n = .ok w') :
    w' = w ++ varUintBytes n ∧ w'.length ≤ MAX_BYTEARRAY_SIZE := by
  unfold writeVarUint at h
  by_cases hc : MAX_BYTEARRAY_SIZE < w.length + (varUintBytes n).length
  · rw [if_pos hc] at h
    exact absurd h (by simp)
  · rw [if_neg hc] at h
    have hw : w ++ varUintBytes n = w' := by simpa using h
    subst hw
    refine ⟨rfl, ?_⟩
    simp only [List.length_append]
    omega

theorem writeVarBytes_ok (w bs w' : List Nat)
    (h : writeVarBytes w bs = .ok w') :
    w' = w ++ varUintBytes bs.length ++ bs ∧ w'.length ≤ MAX_BYTEARRAY_SIZE := by
  unfold writeVarBytes at h
  cases hu : writeVarUint w bs.length with
  | error e => rw [hu] at h; exact absurd h (by simp)
  | ok w1 =>
    rw [hu] at h
    dsimp only at h
    obtain ⟨hw1, _⟩ := writeVarUint_ok _ _ _ hu
    by_cases hc : MAX_BYTEARRAY_SIZE < w1.length + bs.length
    · rw [if_pos hc] at h
      exact absurd h (by simp)
    · rw [if_neg hc] at h
      have hw : w1 ++ bs = w' := by simpa using h
      subst hw
      subst hw1
      refine ⟨by simp, ?_⟩
      simp only [List.length_append] at hc ⊢
      omega

theorem collectKeys_ok (es : List (SI × SI)) (hkeys : ∀ e ∈ es, ValidKey e.1) :
    collectKeys es = .ok (es.map keyStrEntry) := by
  induction es with
  | nil => rfl
  | cons e es ih =>
    obtain ⟨k, val⟩ := e
    obtain ⟨hvar, hne⟩ := hkeys (k, val) (by simp)
    have htail : collectKeys es = .ok (es.map keyStrEntry) :=
      ih (fun x hx => hkeys x (by simp [hx]))
    cases k with
    | byteArr bs =>
      simp only [collectKeys, htail]
      rw [if_neg hne]
      simp [keyStrEntry]
    | integer n =>
      simp only [collectKeys, htail]
      rw [if_neg hne]
      simp [keyStrEntry]
    | boolean b => exact hvar.elim
    | arr es' => exact hvar.elim
    | struct es' => exact hvar.elim
    | map es' => exact hvar.elim
    | interop => exact hvar.elim

theorem filter_keyStr_singleton (es : List (SI × SI))
    (hnodup : (es.map keyStrEntry).Nodup) (e : SI × SI) (he : e ∈ es) :
    es.filter (fun x => keyStrEntry x == keyStrEntry e) = [e] := by
  induction es with
  | nil => simp at he
  | cons a as ih =>
    simp only [List.map_cons, List.nodup_cons] at hnodup
    obtain ⟨hna, hnas⟩ := hnodup
    rcases List.mem_cons.mp he with rfl | he2
    · rw [List.filter_cons, if_pos (by simp)]
      have hnil : as.filter (fun x => keyStrEntry x == keyStrEntry e) = [] := by
        rw [List.filter_eq_nil_iff]
        intro x hx
        simp only [beq_iff_eq]
        intro hcontra
        exact hna (hcontra ▸ List.mem_map_of_mem keyStrEntry hx)
      rw [hnil]
    · rw [List.filter_cons, if_neg ?_, ih hnas he2]
      simp only [beq_iff_eq]
      intro hcontra
      exact hna (hcontra ▸ List.mem_map_of_mem keyStrEntry he2)

theorem keyMapGet_self (es : List (SI × SI))
    (hnodup : (es.map keyStrEntry).Nodup) (e : SI × SI) (he : e ∈ es) :
    keyMapGet (keyStrEntry e) es = e := by
  unfold keyMapGet
  rw [filter_keyStr_singleton es hnodup e he]
  rfl

theorem forall₂_perm_left {α β : Type} (R : α → β → Prop) (l₁ : List α) (l₁' : List α)
    (hp : l₁.Perm l₁') :
    ∀ l₂, List.Forall₂ R l₁ l₂ →
      ∃ l₂', l₂.Perm l₂' ∧ List.Forall₂ R l₁' l₂' := by
  induction hp with
  | nil =>
    intro l₂ hf
    rw [List.forall₂_nil_left_iff] at hf
    exact ⟨[], by simp [hf], by simp [hf, List.Forall₂.nil]⟩
  | cons x hp ih =>
    intro l₂ hf
    rw [List.forall₂_cons_left_iff] at hf
    obtain ⟨b, u, hxb, hrest, rfl⟩ := hf
    obtain ⟨u', hup, hf'⟩ := ih u hrest
    exact ⟨b :: u', List.Perm.cons b hup, List.Forall₂.cons hxb hf'⟩
  | swap x y l =>
    intro l₂ hf
    rw [List.forall₂_cons_left_iff] at hf
    obtain ⟨b, u, hyb, hrest, rfl⟩ := hf
    rw [List.forall₂_cons_left_iff] at hrest
    obtain ⟨a, u', hxa, hrest', rfl⟩ := hrest
    exact ⟨a :: b :: u', List.Perm.swap a b u', List.Forall₂.cons hxa (List.Forall₂.cons hyb hrest')⟩
  | trans hp1 hp2 ih1 ih2 =>
    intro l₂ hf
    obtain ⟨u, hu, hf1⟩ := ih1 l₂ hf
    obtain ⟨u', hu', hf2⟩ := ih2 u hf1
    exact ⟨u', hu.trans hu', hf2⟩

theorem decode_byteArr_enc (g : Nat) (bs rest : List Nat) (hlen : bs.length < 2 ^ 64) :
    deserializeStackItemInternal (g + 1) (0x00 :: (varUintBytes bs.length ++ (bs ++ rest))) =
      .ok (SI.byteArr bs, rest) := by
  simp only [deserializeStackItemInternal, readByte, readVarBytes,
    readVarUInt_roundtrip bs.length (bs ++ rest) hlen, readFixed_append, wrapErr]
  norm_num

theorem decode_boolean_enc (g : Nat) (b : Nat) (rest : List Nat) :
    deserializeStackItemInternal (g + 1) (0x01 :: b :: rest) =
      .ok (SI.boolean (decide (b > 0)), rest) := by
  simp only [deserializeStackItemInternal, readByte, wrapErr]
  norm_num

theorem decode_integer_enc (g : Nat) (pl rest : List Nat) (hlen : pl.length ≤ 8) :
    deserializeStackItemInternal (g + 1) (0x02 :: (varUintBytes pl.length ++ (pl ++ rest))) =
      .ok (SI.integer (bytesToInt pl), rest) := by
  have hread : readInt64 (varUintBytes pl.length ++ (pl ++ rest)) = .ok (bytesToInt pl, rest) := by
    simp only [readInt64, readVarBytes,
      readVarUInt_roundtrip pl.length (pl ++ rest) (by norm_num; omega), readFixed_append]
    rw [if_neg (by omega)]
  simp only [deserializeStackItemInternal, readByte, hread, wrapErr]
  norm_num

theorem decode_container_enc (g : Nat) (n : Nat) (hn : n < 2 ^ 64) (body rest : List Nat)
    (items : List SI)
    (hbody : decodeN (deserializeStackItemInternal g) n (body ++ rest) = .ok (items, rest)) :
    deserializeStackItemInternal (g + 1) (0x80 :: (varUintBytes n ++ (body ++ rest))) =
      .ok (SI.arr items, rest) ∧
    deserializeStackItemInternal (g + 1) (0x81 :: (varUintBytes n ++ (body ++ rest))) =
      .ok (SI.struct items, rest) := by
  constructor <;>
    simp only [deserializeStackItemInternal, readByte,
      readVarUInt_roundtrip n (body ++ rest) hn, hbody, wrapErr] <;>
    norm_num

theorem decode_map_enc (g : Nat) (n : Nat) (hn : n < 2 ^ 64) (body rest : List Nat)
    (prs : List (SI × SI))
    (hbody : decodePairs (deserializeStackItemInternal g) n (body ++ rest) = .ok (prs, rest)) :
    deserializeStackItemInternal (g + 1) (0x82 :: (varUintBytes n ++ (body ++ rest))) =
      .ok (SI.map prs, rest) := by
  simp only [deserializeStackItemInternal, readByte,
    readVarUInt_roundtrip n (body ++ rest) hn, hbody, wrapErr]
  norm_num

/-- Round-trip property at serializer fuel `f`: a successful encode appends a
non-empty chunk within the size cap, and decoding that chunk (with fuel
exceeding its length) yields a structurally equal value and the untouched
remainder. -/
def RTP (f : Nat) : Prop :=
  ∀ v w w', WFv v → serializeStackItemInternal f v w = .ok w' →
    ∃ out v', w' = w ++ out ∧ 0 < out.length ∧ w'.length ≤ MAX_BYTEARRAY_SIZE ∧
      StructEq v v' ∧
      ∀ g rest, out.length < g →
        deserializeStackItemInternal g (out ++ rest) = .ok (v', rest)

theorem serializeList_rt (f : Nat) (IH : RTP f) :
    ∀ es w w', (∀ v ∈ es, WFv v) →
      serializeList (serializeStackItemInternal f) es w = .ok w' →
      ∃ out vs', w' = w ++ out ∧ es.length ≤ out.length ∧
        (out = [] ∨ w'.length ≤ MAX_BYTEARRAY_SIZE) ∧
        List.Forall₂ StructEq es vs' ∧
        ∀ g rest, out.length < g →
          decodeN (deserializeStackItemInternal g) es.length (out ++ rest) = .ok (vs', rest) := by
  intro es
  induction es with
  | nil =>
    intro w w' _ hser
    have hw : w = w' := by simpa [serializeList] using hser
    subst hw
    exact ⟨[], [], by simp, by simp, Or.inl rfl, List.Forall₂.nil, by simp [decodeN]⟩
  | cons v vs ih =>
    intro w w' hwf hser
    simp only [serializeList] at hser
    cases hsv : serializeStackItemInternal f v w with
    | error e => rw [hsv] at hser; exact absurd hser (by simp)
    | ok w1 =>
      rw [hsv] at hser
      dsimp only at hser
      obtain ⟨out1, v1', hw1, hpos1, hmax1, hse1, hdec1⟩ :=
        IH v w w1 (hwf v (by simp)) hsv
      obtain ⟨out2, vs2', hw2, hlen2, hmax2, hse2, hdec2⟩ :=
        ih w1 w' (fun x hx => hwf x (by simp [hx])) hser
      refine ⟨out1 ++ out2, v1' :: vs2', ?_, ?_, ?_, List.Forall₂.cons hse1 hse2, ?_⟩
      · rw [hw2, hw1, List.append_assoc]
      · simp only [List.length_cons, List.length_append]
        omega
      · right
        rcases hmax2 with h2 | h2
        · subst h2
          rw [hw2]
          simpa using hmax1
        · exact h2
      · intro g rest hg
        simp only [List.length_append] at hg
        simp only [List.length_cons, decodeN, List.append_assoc]
        rw [hdec1 g (out2 ++ rest) (by omega)]
        dsimp only
        rw [hdec2 g rest (by omega)]

theorem serializeMapEntries_rt (f : Nat) (IH : RTP f) (es : List (SI × SI)) :
    ∀ ss w w',
      (∀ s ∈ ss, WFv (keyMapGet s es).1 ∧ WFv (keyMapGet s es).2) →
      serializeMapEntries (serializeStackItemInternal f) es ss w = .ok w' →
      ∃ out qs', w' = w ++ out ∧ ss.length ≤ out.length ∧
        (out = [] ∨ w'.length ≤ MAX_BYTEARRAY_SIZE) ∧
        List.Forall₂ (fun s q => StructEq (keyMapGet s es).1 q.1 ∧
          StructEq (keyMapGet s es).2 q.2) ss qs' ∧
        ∀ g rest, out.length < g →
          decodePairs (deserializeStackItemInternal g) ss.length (out ++ rest) =
            .ok (qs', rest) := by
  intro ss
  induction ss with
  | nil =>
    intro w w' _ hser
    have hw : w = w' := by simpa [serializeMapEntries] using hser
    subst hw
    exact ⟨[], [], by simp, by simp, Or.inl rfl, List.Forall₂.nil, by simp [decodePairs]⟩
  | cons s ss ih =>
    intro w w' hwf hser
    simp only [serializeMapEntries] at hser
    cases hsk : serializeStackItemInternal f (keyMapGet s es).1 w with
    | error e => rw [hsk] at hser; exact absurd hser (by simp)
    | ok w1 =>
      rw [hsk] at hser
      dsimp only at hser
      cases hsv : serializeStackItemInternal f (keyMapGet s es).2 w1 with
      | error e => rw [hsv] at hser; exact absurd hser (by simp)
      | ok w2 =>
        rw [hsv] at hser
        dsimp only at hser
        obtain ⟨outk, k', hwk, hposk, hmaxk, hsek, hdeck⟩ :=
          IH (keyMapGet s es).1 w w1 (hwf s (by simp)).1 hsk
        obtain ⟨outv, v', hwv, hposv, hmaxv, hsev, hdecv⟩ :=
          IH (keyMapGet s es).2 w1 w2 (hwf s (by simp)).2 hsv
        obtain ⟨out2, qs2', hw2, hlen2, hmax2, hse2, hdec2⟩ :=
          ih w2 w' (fun x hx => hwf x (by simp [hx])) hser
        refine ⟨outk ++ outv ++ out2, (k', v') :: qs2', ?_, ?_, ?_,
          List.Forall₂.cons ⟨hsek, hsev⟩ hse2, ?_⟩
        · rw [hw2, hwv, hwk]
          simp [List.append_assoc]
        · simp only [List.length_cons, List.length_append]
          omega
        · right
          rcases hmax2 with h2 | h2
          · subst h2
            rw [hw2]
            simpa using hmaxv
          · exact h2
        · intro g rest hg
          simp only [List.length_append] at hg
          simp only [List.length_cons, decodePairs, List.append_assoc]
          rw [hdeck g (outv ++ (out2 ++ rest)) (by omega)]
          dsimp only
          rw [hdecv g (out2 ++ rest) (by omega)]
          dsimp only
          rw [hdec2 g rest (by omega)]

theorem structEq_arr (es1 es2 : List SI) (h : List.Forall₂ StructEq es1 es2) :
    StructEq (.arr es1) (.arr es2) := by
  simp only [StructEq]
  refine ⟨h.length_eq, fun p hp => ?_⟩
  exact (List.forall₂_iff_zip.mp h).2 (by simpa using hp)

theorem structEq_struct (es1 es2 : List SI) (h : List.Forall₂ StructEq es1 es2) :
    StructEq (.struct es1) (.struct es2) := by
  simp only [StructEq]
  refine ⟨h.length_eq, fun p hp => ?_⟩
  exact (List.forall₂_iff_zip.mp h).2 (by simpa using hp)

theorem structEq_map (es1 es2' es2 : List (SI × SI)) (hperm : es2'.Perm es2)
    (h : List.Forall₂ (fun p q => StructEq p.1 q.1 ∧ StructEq p.2 q.2) es1 es2') :
    StructEq (.map es1) (.map es2) := by
  simp only [StructEq]
  refine ⟨es2', hperm, h.length_eq, fun p hp => ?_⟩
  exact (List.forall₂_iff_zip.mp h).2 (by simpa using hp)

theorem max_lt_pow64 : MAX_BYTEARRAY_SIZE < 2 ^ 64 := by norm_num [MAX_BYTEARRAY_SIZE]

theorem rtp_succ (f : Nat) (IH : RTP f) : RTP (f + 1) := by
  intro v w w' hwf hser
  cases v with
  | byteArr bs =>
    simp only [serializeStackItemInternal] at hser
    rw [wrapErr_ok] at hser
    cases hw0 : writeUint8 w 0x00 with
    | error e => rw [hw0] at hser; exact absurd hser (by simp)
    | ok w1 =>
      rw [hw0] at hser
      dsimp only at hser
      obtain ⟨hw1, _⟩ := writeUint8_ok _ _ _ hw0
      obtain ⟨hw', hmax⟩ := writeVarBytes_ok _ _ _ hser
      have hbs : bs.length < 2 ^ 64 := by
        have h1 : bs.length ≤ w'.length := by
          rw [hw']
          simp only [List.length_append]
          omega
        have := max_lt_pow64
        omega
      refine ⟨0x00 :: (varUintBytes bs.length ++ bs), .byteArr bs, ?_, by simp, hmax,
        by simp [StructEq], ?_⟩
      · rw [hw', hw1]
        simp
      · intro g rest hg
        obtain ⟨g', rfl⟩ : ∃ g', g = g' + 1 := ⟨g - 1, by omega⟩
        have := decode_byteArr_enc g' bs rest hbs
        simpa [List.append_assoc] using this
  | boolean b =>
    simp only [serializeStackItemInternal] at hser
    rw [wrapErr_ok] at hser
    cases hw0 : writeUint8 w 0x01 with
    | error e => rw [hw0] at hser; exact absurd hser (by simp)
    | ok w1 =>
      rw [hw0] at hser
      dsimp only at hser
      obtain ⟨hw1, _⟩ := writeUint8_ok _ _ _ hw0
      obtain ⟨hw', hmax⟩ := writeUint8_ok _ _ _ hser
      refine ⟨[0x01, if b then 1 else 0], .boolean b, ?_, by simp, hmax, by simp [StructEq], ?_⟩
      · rw [hw', hw1]
        simp
      · intro g rest hg
        obtain ⟨g', rfl⟩ : ∃ g', g = g' + 1 := ⟨g - 1, by omega⟩
        have := decode_boolean_enc g' (if b then 1 else 0) rest
        have hb : SI.boolean (decide ((if b then 1 else 0) > 0)) = SI.boolean b := by
          cases b <;> simp
        rw [hb] at this
        simpa using this
  | integer n =>
    simp only [WFv] at hwf
    simp only [serializeStackItemInternal] at hser
    rw [wrapErr_ok] at hser
    cases hw0 : writeUint8 w 0x02 with
    | error e => rw [hw0] at hser; exact absurd hser (by simp)
    | ok w1 =>
      rw [hw0] at hser
      dsimp only at hser
      obtain ⟨hw1, _⟩ := writeUint8_ok _ _ _ hw0
      obtain ⟨hw', hmax⟩ := writeVarBytes_ok _ _ _ hser
      have hlen8 : (bigIntToBytes n).length ≤ 8 := bigIntToBytes_length_le n hwf.1 hwf.2
      refine ⟨0x02 :: (varUintBytes (bigIntToBytes n).length ++ bigIntToBytes n),
        .integer n, ?_, by simp, hmax, by simp [StructEq], ?_⟩
      · rw [hw', hw1]
        simp
      · intro g rest hg
        obtain ⟨g', rfl⟩ : ∃ g', g = g' + 1 := ⟨g - 1, by omega⟩
        have := decode_integer_enc g' (bigIntToBytes n) rest hlen8
        rw [bytesToInt_bigIntToBytes n hwf.1 hwf.2] at this
        simpa [List.append_assoc] using this
  | arr es =>
    simp only [WFv] at hwf
    simp only [serializeStackItemInternal] at hser
    rw [wrapErr_ok] at hser
    cases hw0 : writeUint8 w 0x80 with
    | error e => rw [hw0] at hser; exact absurd hser (by simp)
    | ok w0 =>
      rw [hw0] at hser
      dsimp only at hser
      cases hwc : writeVarUint w0 es.length with
      | error e => rw [hwc] at hser; exact absurd hser (by simp)
      | ok w1 =>
        rw [hwc] at hser
        dsimp only at hser
        obtain ⟨hw0e, _⟩ := writeUint8_ok _ _ _ hw0
        obtain ⟨hw1e, hw1max⟩ := writeVarUint_ok _ _ _ hwc
        obtain ⟨out2, vs', hw', hcnt, hmax2, hfa, hdec⟩ :=
          serializeList_rt f IH es w1 w' hwf hser
        have hwmax : w'.length ≤ MAX_BYTEARRAY_SIZE := by
          rcases hmax2 with h2 | h2
          · subst h2
            rw [hw']
            simpa using hw1max
          · exact h2
        have hout2 : out2.length ≤ MAX_BYTEARRAY_SIZE := by
          have : out2.length ≤ w'.length := by rw [hw']; simp
          omega
        have hn : es.length < 2 ^ 64 := by
          have := max_lt_pow64
          omega
        refine ⟨0x80 :: (varUintBytes es.length ++ out2), .arr vs', ?_, by simp, hwmax,
          structEq_arr es vs' hfa, ?_⟩
        · rw [hw', hw1e, hw0e]
          simp
        · intro g rest hg
          obtain ⟨g', rfl⟩ : ∃ g', g = g' + 1 := ⟨g - 1, by omega⟩
          have hvu : 0 < (varUintBytes es.length).length := varUintBytes_length_pos _
          simp only [List.length_cons, List.length_append] at hg
          have hdecN := hdec g' rest (by omega)
          have := (decode_container_enc g' es.length hn out2 rest vs' hdecN).1
          simpa [List.append_assoc] using this
  | struct es =>
    simp only [WFv] at hwf
    simp only [serializeStackItemInternal] at hser
    rw [wrapErr_ok] at hser
    cases hw0 : writeUint8 w 0x81 with
    | error e => rw [hw0] at hser; exact absurd hser (by simp)
    | ok w0 =>
      rw [hw0] at hser
      dsimp only at hser
      cases hwc : writeVarUint w0 es.length with
      | error e => rw [hwc] at hser; exact absurd hser (by simp)
      | ok w1 =>
        rw [hwc] at hser
        dsimp only at hser
        obtain ⟨hw0e, _⟩ := writeUint8_ok _ _ _ hw0
        obtain ⟨hw1e, hw1max⟩ := writeVarUint_ok _ _ _ hwc
        obtain ⟨out2, vs', hw', hcnt, hmax2, hfa, hdec⟩ :=
          serializeList_rt f IH es w1 w' hwf hser
        have hwmax : w'.length ≤ MAX_BYTEARRAY_SIZE := by
          rcases hmax2 with h2 | h2
          · subst h2
            rw [hw']
            simpa using hw1max
          · exact h2
        have hout2 : out2.length ≤ MAX_BYTEARRAY_SIZE := by
          have : out2.length ≤ w'.length := by rw [hw']; simp
          omega
        have hn : es.length < 2 ^ 64 := by
          have := max_lt_pow64
          omega
        refine ⟨0x81 :: (varUintBytes es.length ++ out2), .struct vs', ?_, by simp, hwmax,
          structEq_struct es vs' hfa, ?_⟩
        · rw [hw', hw1e, hw0e]
          simp
        · intro g rest hg
          obtain ⟨g', rfl⟩ : ∃ g', g = g' + 1 := ⟨g - 1, by omega⟩
          have hvu : 0 < (varUintBytes es.length).length := varUintBytes_length_pos _
          simp only [List.length_cons, List.length_append] at hg
          have hdecN := hdec g' rest (by omega)
          have := (decode_container_enc g' es.length hn out2 rest vs' hdecN).2
          simpa [List.append_assoc] using this
  | map es =>
    simp only [WFv] at hwf
    obtain ⟨hpairs, hkeys, hnodup⟩ := hwf
    simp only [serializeStackItemInternal] at hser
    cases hwrap : wrapErr "Serialize Struct stackItems error: "
        (match writeUint8 w 0x82 with
         | .error e => .error e
         | .ok w0 =>
           match writeVarUint w0 es.length with
           | .error e => .error e
           | .ok w1 =>
             match collectKeys es with
             | .error e => .error e
             | .ok ss => .ok (w1, ss)) with
    | error e => rw [hwrap] at hser; exact absurd hser (by simp)
    | ok pr =>
      rw [hwrap] at hser
      dsimp only at hser
      obtain ⟨w1, ss⟩ := pr
      rw [wrapErr_ok] at hwrap
      cases hw0 : writeUint8 w 0x82 with
      | error e => rw [hw0] at hwrap; exact absurd hwrap (by simp)
      | ok w0 =>
        rw [hw0] at hwrap
        dsimp only at hwrap
        cases hwc : writeVarUint w0 es.length with
        | error e => rw [hwc] at hwrap; exact absurd hwrap (by simp)
        | ok w1' =>
          rw [hwc] at hwrap
          dsimp only at hwrap
          rw [collectKeys_ok es hkeys] at hwrap
          dsimp only at hwrap
          simp only [Except.ok.injEq, Prod.mk.injEq] at hwrap
          obtain ⟨hw1eq, hsseq⟩ := hwrap
          subst hw1eq
          subst hsseq
          obtain ⟨hw0e, _⟩ := writeUint8_ok _ _ _ hw0
          obtain ⟨hw1e, hw1max⟩ := writeVarUint_ok _ _ _ hwc
          -- the emitted entries
          have hself : ∀ e ∈ es, keyMapGet (keyStrEntry e) es = e :=
            fun e he => keyMapGet_self es hnodup e he
          have hwfss : ∀ s ∈ List.insertionSort StrLeR (es.map keyStrEntry),
              WFv (keyMapGet s es).1 ∧ WFv (keyMapGet s es).2 := by
            intro s hs
            rw [List.mem_insertionSort] at hs
            obtain ⟨e, he, rfl⟩ := List.mem_map.mp hs
            rw [hself e he]
            exact hpairs e he
          obtain ⟨out2, qs', hw', hcnt, hmax2, hfa, hdec⟩ :=
            serializeMapEntries_rt f IH es _ w1' w' hwfss hser
          have hsortlen : (List.insertionSort StrLeR (es.map keyStrEntry)).length = es.length := by
            rw [(List.perm_insertionSort StrLeR (es.map keyStrEntry)).length_eq]
            simp
          have hwmax : w'.length ≤ MAX_BYTEARRAY_SIZE := by
            rcases hmax2 with h2 | h2
            · subst h2
              rw [hw']
              simpa using hw1max
            · exact h2
          have hout2 : out2.length ≤ MAX_BYTEARRAY_SIZE := by
            have : out2.length ≤ w'.length := by rw [hw']; simp
            omega
          have hn : es.length < 2 ^ 64 := by
            have := max_lt_pow64
            rw [← hsortlen]
            omega
          -- emitted entries are a permutation of the entries
          have hmapeq : (es.map keyStrEntry).map (fun s => keyMapGet s es) = es := by
            rw [List.map_map]
            have hpt : ∀ e ∈ es, ((fun s => keyMapGet s es) ∘ keyStrEntry) e = id e :=
              fun e he => hself e he
            rw [List.map_congr_left hpt, List.map_id]
          have hperm : ((List.insertionSort StrLeR (es.map keyStrEntry)).map
              (fun s => keyMapGet s es)).Perm es := by
            have h1 := (List.perm_insertionSort StrLeR (es.map keyStrEntry)).map
              (fun s => keyMapGet s es)
            rw [hmapeq] at h1
            exact h1
          have hfa2 : List.Forall₂ (fun p q => StructEq p.1 q.1 ∧ StructEq p.2 q.2)
              ((List.insertionSort StrLeR (es.map keyStrEntry)).map (fun s => keyMapGet s es))
              qs' := by
            rw [List.forall₂_map_left_iff]
            exact hfa
          obtain ⟨qs'', hqperm, hfa3⟩ :=
            forall₂_perm_left _ _ es hperm qs' hfa2
          refine ⟨0x82 :: (varUintBytes es.length ++ out2), .map qs', ?_, by simp, hwmax,
            structEq_map es qs'' qs' hqperm.symm hfa3, ?_⟩
          · rw [hw', hw1e, hw0e]
            simp
          · intro g rest hg
            obtain ⟨g', rfl⟩ : ∃ g', g = g' + 1 := ⟨g - 1, by omega⟩
            have hvu : 0 < (varUintBytes es.length).length := varUintBytes_length_pos _
            simp only [List.length_cons, List.length_append] at hg
            have hdecP := hdec g' rest (by omega)
            rw [hsortlen] at hdecP
            have := decode_map_enc g' es.length hn out2 rest qs' hdecP
            simpa [List.append_assoc] using this
  | interop =>
    simp only [WFv] at hwf

theorem rtp_all (f : Nat) : RTP f := by
  induction f with
  | zero =>
    intro v w w' _ hser
    exact absurd hser (by simp [serializeStackItemInternal])
  | succ f ih => exact rtp_succ f ih

/-! ## Claim theorems -/

/-- C1 counterexample: the Map `{Integer(0) -> Boolean(true)}` is a value of
the variant grammar within the depth limit and of tiny encoded size, yet
`serialize` fails on it (the key's byte form is empty, so the key loop
throws `invalid key type`), so `deserialize(serialize(v))` does not
succeed. -/
theorem serialize_fails_on_integer_zero_key :
    circularRefAndDepthDetectionTree (SI.map [(SI.integer 0, SI.boolean true)]) = false ∧
    serializeStackItem (SI.map [(SI.integer 0, SI.boolean true)]) =
      .error "Serialize Struct stackItems error: Error: Serialize Map error: invalid key type" := by
  constructor
  · rfl
  · rfl

/-- C1 (amended): for every non-Interop value of the variant grammar with
64-bit integers, whose Map keys are ByteArray/Integer with non-empty and
(within each map) pairwise distinct string coercions, whose nesting passes
the depth guard, and whose encoding stays within `MAX_BYTEARRAY_SIZE`
(expressed as: `serialize` succeeds), `deserialize(serialize(v))` succeeds
and yields a value structurally equal to `v`: same variant element-wise,
container order preserved for Array/Struct, and the same key/value pairs for
Map up to the serializer's reordering. -/
theorem deserialize_serialize_roundTrip (v : SI) (bs : List Nat)
    (hwf : WFv v)
    (hdepth : circularRefAndDepthDetectionTree v = false)
    (hser : serializeStackItem v = .ok bs) :
    ∃ v', deserializeStackItem bs = .ok v' ∧ StructEq v v' := by
  unfold serializeStackItem at hser
  rw [hdepth] at hser
  simp only [Bool.false_eq_true, if_false] at hser
  obtain ⟨out, v', hw', hpos, _, hse, hdec⟩ :=
    rtp_all (MAX_STRUCT_DEPTH + 2) v [] bs hwf hser
  have hout : bs = out := by simpa using hw'
  subst hout
  refine ⟨v', ?_, hse⟩
  unfold deserializeStackItem
  have := hdec (bs.length + 1) [] (by omega)
  rw [List.append_nil] at this
  rw [this]

/-- C1 witness: a concrete array holding an integer, a byte array, a
two-entry map and a struct round-trips. -/
theorem deserialize_serialize_roundTrip_witness :
    (WFv (SI.arr [SI.integer 5, SI.byteArr [1, 2],
        SI.map [(SI.byteArr [0x61], SI.integer 1), (SI.byteArr [0x62], SI.boolean true)],
        SI.struct [SI.arr []]]) ∧
      circularRefAndDepthDetectionTree (SI.arr [SI.integer 5, SI.byteArr [1, 2],
        SI.map [(SI.byteArr [0x61], SI.integer 1), (SI.byteArr [0x62], SI.boolean true)],
        SI.struct [SI.arr []]]) = false) ∧
    ∃ v', deserializeStackItem [0x80, 0x04, 0x02, 0x01, 0x05, 0x00, 0x02, 0x01, 0x02,
        0x82, 0x02, 0x00, 0x01, 0x61, 0x02, 0x01, 0x01, 0x00, 0x01, 0x62, 0x01, 0x01,
        0x81, 0x01, 0x80, 0x00] = .ok v' ∧
      StructEq (SI.arr [SI.integer 5, SI.byteArr [1, 2],
        SI.map [(SI.byteArr [0x61], SI.integer 1), (SI.byteArr [0x62], SI.boolean true)],
        SI.struct [SI.arr []]]) v' := by
  refine ⟨⟨?_, rfl⟩, deserialize_serialize_roundTrip _ _ ?_ rfl rfl⟩
  · simp [WFv, ValidKey]
    decide
  · simp [WFv, ValidKey]
    decide

/-- Writer success on small appends. -/
theorem writeUint8_small (w : List Nat) (b : Nat) (h : w.length + 1 ≤ MAX_BYTEARRAY_SIZE) :
    writeUint8 w b = .ok (w ++ [b]) := by
  unfold writeUint8
  rw [if_neg (by omega)]

theorem varUintBytes_length_le (n : Nat) : (varUintBytes n).length ≤ 9 := by
  unfold varUintBytes
  split
  · simp
  · split
    · simp [leBytesFixed_length]
    · split <;> simp [leBytesFixed_length]

theorem writeVarUint_small (w : List Nat) (n : Nat)
    (h : w.length + (varUintBytes n).length ≤ MAX_BYTEARRAY_SIZE) :
    writeVarUint w n = .ok (w ++ varUintBytes n) := by
  unfold writeVarUint
  rw [if_neg (by omega)]

theorem writeVarBytes_small (w bs : List Nat)
    (h : w.length + (varUintBytes bs.length).length + bs.length ≤ MAX_BYTEARRAY_SIZE) :
    writeVarBytes w bs = .ok (w ++ varUintBytes bs.length ++ bs) := by
  unfold writeVarBytes
  rw [writeVarUint_small w bs.length (by omega)]
  dsimp only
  rw [if_neg (by simp only [List.length_append]; omega)]

/-- Serializing an in-range integer always succeeds, with the tag and the
length-prefixed minimal byte encoding. -/
theorem serialize_integer_ok (n : Int) (h1 : -(2 : Int) ^ 63 ≤ n) (h2 : n < (2 : Int) ^ 63) :
    serializeStackItem (SI.integer n) =
      .ok (0x02 :: (varUintBytes (bigIntToBytes n).length ++ bigIntToBytes n)) := by
  have hlen8 : (bigIntToBytes n).length ≤ 8 := bigIntToBytes_length_le n h1 h2
  have hvu : (varUintBytes (bigIntToBytes n).length).length ≤ 9 := varUintBytes_length_le _
  unfold serializeStackItem
  rw [show circularRefAndDepthDetectionTree (SI.integer n) = false from rfl]
  simp only [Bool.false_eq_true, if_false]
  rw [show MAX_STRUCT_DEPTH + 2 = (MAX_STRUCT_DEPTH + 1) + 1 from rfl]
  simp only [serializeStackItemInternal]
  rw [writeUint8_small [] 0x02 (by norm_num [MAX_BYTEARRAY_SIZE])]
  dsimp only
  rw [show ([] ++ [0x02] : List Nat) = [0x02] from rfl]
  rw [writeVarBytes_small [0x02] (bigIntToBytes n)
    (by simp only [List.length_cons, List.length_nil]; norm_num [MAX_BYTEARRAY_SIZE]; omega)]
  simp [wrapErr]

/-- Decoding a length-prefixed integer payload of at most 8 bytes. -/
theorem deserialize_integer_payload (pl : List Nat) (hlen : pl.length ≤ 8) :
    deserializeStackItem (0x02 :: (varUintBytes pl.length ++ pl)) =
      .ok (SI.integer (bytesToInt pl)) := by
  unfold deserializeStackItem
  have hdec := decode_integer_enc (0x02 :: (varUintBytes pl.length ++ pl)).length pl [] hlen
  rw [List.append_nil] at hdec
  rw [hdec]

/-- Decoding a length-prefixed integer payload longer than 8 bytes fails. -/
theorem deserialize_integer_too_long (pl : List Nat) (hlen : 8 < pl.length)
    (hlt : pl.length < 2 ^ 64) :
    ∃ msg, deserializeStackItem (0x02 :: (varUintBytes pl.length ++ pl)) = .error msg := by
  have hfix : readFixed pl.length pl = .ok (pl, []) := by
    have := readFixed_append pl []
    rwa [List.append_nil] at this
  have hread : readInt64 (varUintBytes pl.length ++ pl) =
      .error "read int64: byte length exceeds 8" := by
    simp only [readInt64, readVarBytes, readVarUInt_roundtrip pl.length pl hlt, hfix]
    rw [if_pos (by omega)]
  refine ⟨"Deserialize error: Error: Deserialize stackItems Integer error: Error: read int64: byte length exceeds 8", ?_⟩
  unfold deserializeStackItem
  simp only [deserializeStackItemInternal, readByte, hread, wrapErr]
  norm_num
  rfl

/-- C2: the Integer branch of the deserializer reads a length-prefixed
payload as a signed 64-bit integer, failing when the payload exceeds 8
bytes; decoding the serializer's own Integer output returns the same value,
and in particular `Integer(0)` encodes to `[0x02, 0x00]` and decodes back. -/
theorem deserialize_integer_branch :
    (∀ pl : List Nat, pl.length ≤ 8 →
      deserializeStackItem (0x02 :: (varUintBytes pl.length ++ pl)) =
        .ok (SI.integer (bytesToInt pl))) ∧
    (∀ pl : List Nat, 8 < pl.length → pl.length < 2 ^ 64 →
      ∃ msg, deserializeStackItem (0x02 :: (varUintBytes pl.length ++ pl)) = .error msg) ∧
    (∀ n : Int, -(2 : Int) ^ 63 ≤ n → n < (2 : Int) ^ 63 →
      serializeStackItem (SI.integer n) =
        .ok (0x02 :: (varUintBytes (bigIntToBytes n).length ++ bigIntToBytes n)) ∧
      deserializeStackItem (0x02 :: (varUintBytes (bigIntToBytes n).length ++ bigIntToBytes n)) =
        .ok (SI.integer n)) ∧
    (serializeStackItem (SI.integer 0) = .ok [0x02, 0x00] ∧
      deserializeStackItem [0x02, 0x00] = .ok (SI.integer 0)) := by
  refine ⟨deserialize_integer_payload, deserialize_integer_too_long, ?_, rfl, rfl⟩
  intro n h1 h2
  refine ⟨serialize_integer_ok n h1 h2, ?_⟩
  have := deserialize_integer_payload (bigIntToBytes n) (bigIntToBytes_length_le n h1 h2)
  rwa [bytesToInt_bigIntToBytes n h1 h2] at this

/-- C2 witness: concrete instances of each conjunct. -/
theorem deserialize_integer_branch_witness :
    deserializeStackItem [0x02, 0x03, 0x01, 0x02, 0x03] =
      .ok (SI.integer (bytesToInt [0x01, 0x02, 0x03])) ∧
    (∃ msg, deserializeStackItem
      (0x02 :: (varUintBytes (List.replicate 9 0).length ++ List.replicate 9 0)) = .error msg) ∧
    serializeStackItem (SI.integer (-5)) =
      .ok (0x02 :: (varUintBytes (bigIntToBytes (-5)).length ++ bigIntToBytes (-5))) := by
  refine ⟨?_, ?_, ?_⟩
  · have := (deserialize_integer_branch.1) [0x01, 0x02, 0x03] (by norm_num)
    simpa [varUintBytes] using this
  · exact (deserialize_integer_branch.2.1) (List.replicate 9 0) (by simp) (by simp)
  · exact ((deserialize_integer_branch.2.2.1) (-5) (by norm_num) (by norm_num)).1

/-- C3 counterexample: a two-entry map whose keys are the 3-byte UTF-8
encoding of U+E000 and the 4-byte encoding of U+10000.  By raw bytes
`[0xee, ...]` sorts strictly before `[0xf0, ...]`, yet the serializer emits
the `[0xf0, ...]` key first, because the string coercion of U+10000 is the
surrogate pair `[0xd800, 0xdc00]` and JavaScript sorts by UTF-16 code units
(0xd800 < 0xe000).  The output is therefore not sorted by the keys' byte
forms. -/
theorem map_sort_not_byte_lex :
    ([0xee, 0x80, 0x80] ≠ ([0xf0, 0x90, 0x80, 0x80] : List Nat)) ∧
    strLe [0xee, 0x80, 0x80] [0xf0, 0x90, 0x80, 0x80] = true ∧
    serializeStackItem (SI.map [(SI.byteArr [0xee, 0x80, 0x80], SI.integer 1),
        (SI.byteArr [0xf0, 0x90, 0x80, 0x80], SI.integer 2)]) =
      .ok [0x82, 0x02,
           0x00, 0x04, 0xf0, 0x90, 0x80, 0x80, 0x02, 0x01, 0x02,
           0x00, 0x03, 0xee, 0x80, 0x80, 0x02, 0x01, 0x01] ∧
    [0x82, 0x02,
     0x00, 0x04, 0xf0, 0x90, 0x80, 0x80, 0x02, 0x01, 0x02,
     0x00, 0x03, 0xee, 0x80, 0x80, 0x02, 0x01, 0x01] ≠
      [0x82, 0x02,
       0x00, 0x03, 0xee, 0x80, 0x80, 0x02, 0x01, 0x01,
       0x00, 0x04, 0xf0, 0x90, 0x80, 0x80, 0x02, 0x01, 0x02] := by
  refine ⟨by decide, by decide, by rfl, by decide⟩

/-- The emission order of the Map branch: key strings sorted, each mapped
back to its entry. -/
def sortEntries (es : List (SI × SI)) : List (SI × SI) :=
  (List.insertionSort StrLeR (es.map keyStrEntry)).map (fun s => keyMapGet s es)

theorem keyMapGet_str (es : List (SI × SI)) (s : List Nat)
    (hs : s ∈ es.map keyStrEntry) : keyStrEntry (keyMapGet s es) = s := by
  obtain ⟨e, he, rfl⟩ := List.mem_map.mp hs
  unfold keyMapGet
  have hmem : e ∈ es.filter (fun x => keyStrEntry x == keyStrEntry e) :=
    List.mem_filter.mpr ⟨he, by simp⟩
  have hne : es.filter (fun x => keyStrEntry x == keyStrEntry e) ≠ [] := by
    intro hnil
    rw [hnil] at hmem
    simp at hmem
  have hlastmem : (es.filter (fun x => keyStrEntry x == keyStrEntry e)).getLastD
      (SI.byteArr [], SI.byteArr []) ∈ es.filter (fun x => keyStrEntry x == keyStrEntry e) := by
    rw [List.getLastD_eq_getLast?, List.getLast?_eq_getLast _ hne]
    simp only [Option.getD_some]
    exact List.getLast_mem hne
  have := (List.mem_filter.mp hlastmem).2
  simpa using this

theorem perm_any_eq {α : Type} (l1 l2 : List α) (f : α → Bool) (h : l1.Perm l2) :
    l1.any f = l2.any f := by
  cases hb : l2.any f
  · rw [List.any_eq_false] at hb ⊢
    exact fun x hx => hb x (h.mem_iff.mp hx)
  · rw [List.any_eq_true] at hb ⊢
    obtain ⟨x, hx, hfx⟩ := hb
    exact ⟨x, h.mem_iff.mpr hx, hfx⟩

theorem keyMapGet_perm (es es2 : List (SI × SI)) (hperm : es2.Perm es)
    (hnodup : (es.map keyStrEntry).Nodup) (s : List Nat)
    (hs : s ∈ es.map keyStrEntry) :
    keyMapGet s es2 = keyMapGet s es := by
  have hnodup2 : (es2.map keyStrEntry).Nodup :=
    ((hperm.map keyStrEntry).nodup_iff).mpr hnodup
  obtain ⟨e, he, rfl⟩ := List.mem_map.mp hs
  rw [keyMapGet_self es hnodup e he,
    keyMapGet_self es2 hnodup2 e (hperm.mem_iff.mpr he)]

theorem serializeMapEntries_congr (ser : SI → List Nat → Except String (List Nat))
    (es es2 : List (SI × SI)) :
    ∀ ss w, (∀ s ∈ ss, keyMapGet s es2 = keyMapGet s es) →
      serializeMapEntries ser es2 ss w = serializeMapEntries ser es ss w := by
  intro ss
  induction ss with
  | nil => intro w _; rfl
  | cons s ss ih =>
    intro w hss
    simp only [serializeMapEntries, hss s (by simp)]
    cases ser (keyMapGet s es).1 w with
    | error e => rfl
    | ok w1 =>
      dsimp only
      cases ser (keyMapGet s es).2 w1 with
      | error e => rfl
      | ok w2 =>
        dsimp only
        exact ih w2 (fun x hx => hss x (by simp [hx]))

/-- Definitional unfolding of the Map branch of the serializer. -/
theorem serializeMap_unfold (f : Nat) (es : List (SI × SI)) (w : List Nat) :
    serializeStackItemInternal (f + 1) (SI.map es) w =
      match wrapErr "Serialize Struct stackItems error: "
          (match writeUint8 w 0x82 with
           | .error e => .error e
           | .ok w0 =>
             match writeVarUint w0 es.length with
             | .error e => .error e
             | .ok w1 =>
               match collectKeys es with
               | .error e => .error e
               | .ok ss => .ok (w1, ss)) with
      | .error e => .error e
      | .ok (w1, ss) =>
        serializeMapEntries (serializeStackItemInternal f) es (List.insertionSort StrLeR ss) w1 := rfl

/-- C3 (amended): the Map branch emits its entries key-then-value sorted by
the UTF-16 code-unit lexicographic order of the keys' byte-to-string
coercions (JavaScript string order) — which differs from ascending raw-byte
order for some keys — and, provided the keys' string coercions are pairwise
distinct, two Maps holding the same entries in different insertion orders
serialize to byte-identical output. -/
theorem map_serialize_canonical_order (es : List (SI × SI))
    (hkeys : ∀ e ∈ es, ValidKey e.1)
    (hnodup : (es.map keyStrEntry).Nodup) :
    List.Sorted StrLeR ((sortEntries es).map keyStrEntry) ∧
    (sortEntries es).Perm es ∧
    ∀ es2, es2.Perm es → serializeStackItem (SI.map es2) = serializeStackItem (SI.map es) := by
  have hself : ∀ e ∈ es, keyMapGet (keyStrEntry e) es = e :=
    fun e he => keyMapGet_self es hnodup e he
  have hmapeq : (es.map keyStrEntry).map (fun s => keyMapGet s es) = es := by
    rw [List.map_map]
    have hpt : ∀ e ∈ es, ((fun s => keyMapGet s es) ∘ keyStrEntry) e = id e :=
      fun e he => hself e he
    rw [List.map_congr_left hpt, List.map_id]
  refine ⟨?_, ?_, ?_⟩
  · have hstr : (sortEntries es).map keyStrEntry =
        List.insertionSort StrLeR (es.map keyStrEntry) := by
      unfold sortEntries
      rw [List.map_map]
      apply List.map_congr_left ?_ |>.trans (List.map_id _)
      intro s hs
      rw [List.mem_insertionSort] at hs
      exact keyMapGet_str es s hs
    rw [hstr]
    exact List.sorted_insertionSort StrLeR (es.map keyStrEntry)
  · unfold sortEntries
    have h1 := (List.perm_insertionSort StrLeR (es.map keyStrEntry)).map
      (fun s => keyMapGet s es)
    rwa [hmapeq] at h1
  · intro es2 hperm
    have hkeys2 : ∀ e ∈ es2, ValidKey e.1 := fun e he => hkeys e (hperm.mem_iff.mp he)
    have hguard : circularRefAndDepthDetectionTree (SI.map es2) =
        circularRefAndDepthDetectionTree (SI.map es) := by
      simp only [circularRefAndDepthDetectionTree, circularRefAndDepthDetectionTreeAux]
      exact perm_any_eq es2 es _ hperm
    unfold serializeStackItem
    rw [hguard]
    by_cases hg : circularRefAndDepthDetectionTree (SI.map es) = true
    · rw [hg]
      simp
    · rw [Bool.not_eq_true] at hg
      rw [hg]
      simp only [Bool.false_eq_true, if_false]
      rw [show MAX_STRUCT_DEPTH + 2 = (MAX_STRUCT_DEPTH + 1) + 1 from rfl]
      rw [serializeMap_unfold, serializeMap_unfold]
      rw [hperm.length_eq, collectKeys_ok es2 hkeys2, collectKeys_ok es hkeys,
        writeUint8_small [] 0x82 (by norm_num [MAX_BYTEARRAY_SIZE])]
      dsimp only
      rw [writeVarUint_small ([] ++ [0x82]) es.length
        (by have := varUintBytes_length_le es.length
            simp only [List.length_append, List.length_cons, List.length_nil]
            norm_num [MAX_BYTEARRAY_SIZE]
            omega)]
      dsimp only [wrapErr]
      have hsorteq : List.insertionSort StrLeR (es2.map keyStrEntry) =
          List.insertionSort StrLeR (es.map keyStrEntry) := by
        apply List.eq_of_perm_of_sorted ?_
          (List.sorted_insertionSort StrLeR (es2.map keyStrEntry))
          (List.sorted_insertionSort StrLeR (es.map keyStrEntry))
        exact ((List.perm_insertionSort StrLeR (es2.map keyStrEntry)).trans
          (hperm.map keyStrEntry)).trans
          (List.perm_insertionSort StrLeR (es.map keyStrEntry)).symm
      rw [hsorteq]
      apply serializeMapEntries_congr
      intro s hs
      rw [List.mem_insertionSort] at hs
      exact keyMapGet_perm es es2 hperm hnodup s hs

/-- C3 witness: a concrete two-entry map; the emission order is sorted and a
permuted insertion order serializes identically. -/
theorem map_serialize_canonical_order_witness :
    List.Sorted StrLeR ((sortEntries [(SI.byteArr [0x62], SI.integer 2),
        (SI.byteArr [0x61], SI.integer 1)]).map keyStrEntry) ∧
    (sortEntries [(SI.byteArr [0x62], SI.integer 2),
        (SI.byteArr [0x61], SI.integer 1)]).Perm
      [(SI.byteArr [0x62], SI.integer 2), (SI.byteArr [0x61], SI.integer 1)] ∧
    serializeStackItem (SI.map [(SI.byteArr [0x61], SI.integer 1),
        (SI.byteArr [0x62], SI.integer 2)]) =
      serializeStackItem (SI.map [(SI.byteArr [0x62], SI.integer 2),
        (SI.byteArr [0x61], SI.integer 1)]) := by
  have h := map_serialize_canonical_order
    [(SI.byteArr [0x62], SI.integer 2), (SI.byteArr [0x61], SI.integer 1)]
    (by simp [ValidKey]; decide) (by decide)
  exact ⟨h.1, h.2.1, h.2.2 _ (List.Perm.swap (SI.byteArr [0x62], SI.integer 2)
    (SI.byteArr [0x61], SI.integer 1) [])⟩

/-- C4: the keys `[0xff]` and `[0xfe]` are distinct byte sequences whose
string coercions are both the single replacement character U+FFFD.  The map
holding both serializes successfully, writes entry count 2, and emits the
`[0xfe]` entry twice — byte `0xff` does not occur in the output at all, so
the `[0xff]` entry is omitted entirely: serialization does not faithfully
represent every Map whose keys are pairwise distinct as byte sequences. -/
theorem map_key_string_collision :
    ([0xff] ≠ ([0xfe] : List Nat)) ∧
    bufferToString [0xff] = bufferToString [0xfe] ∧
    serializeStackItem (SI.map [(SI.byteArr [0xff], SI.integer 1),
        (SI.byteArr [0xfe], SI.integer 2)]) =
      .ok [0x82, 0x02, 0x00, 0x01, 0xfe, 0x02, 0x01, 0x02,
           0x00, 0x01, 0xfe, 0x02, 0x01, 0x02] ∧
    0xff ∉ [0x82, 0x02, 0x00, 0x01, 0xfe, 0x02, 0x01, 0x02,
            0x00, 0x01, 0xfe, 0x02, 0x01, 0x02] := by
  exact ⟨by decide, by rfl, by rfl, by decide⟩

/-- A chain of nested single-element Arrays ending in an empty Array. -/
def nestedArrayChain : Nat → SI
  | 0 => SI.arr []
  | n + 1 => SI.arr [nestedArrayChain n]

/-- The wire encoding of `nestedArrayChain n`. -/
def nestedArrayChainBytes : Nat → List Nat
  | 0 => [0x80, 0x00]
  | n + 1 => 0x80 :: 0x01 :: nestedArrayChainBytes n

/-- C5: the deserializer enforces no depth bound of its own.  The input
encoding `MAX_STRUCT_DEPTH + 2` nested Arrays — whose nesting the
serializer's own guard rejects as exceeding `MAX_STRUCT_DEPTH` — is decoded
successfully instead of failing. -/
theorem deserialize_no_depth_bound :
    deserializeStackItem (nestedArrayChainBytes (MAX_STRUCT_DEPTH + 1)) =
      .ok (nestedArrayChain (MAX_STRUCT_DEPTH + 1)) ∧
    circularRefAndDepthDetectionTree (nestedArrayChain (MAX_STRUCT_DEPTH + 1)) = true := by
  exact ⟨by rfl, by rfl⟩

/-- C6: for every Array node that reaches itself through Array/Struct/Map
containers (a non-empty container path from the node back to itself, at any
depth), `serialize` fails with the circular-reference error.  The embedding
itself witnesses termination: the guard recurses on the strictly decreasing
gas `MAX_STRUCT_DEPTH + 1 - depth`, which is the source's own termination
argument (`depth` grows by one per call and is checked on entry), so the
traversal is total even on cyclic heaps. -/
theorem serialize_cyclic_array_fails (h : Heap) (v : Nat) (es : List Nat)
    (_hcell : cellAt h v = Cell.arr es) (p : List Nat) (hne : p ≠ [])
    (hp : isPathFrom h v p = true) (hcyc : pathEnd v p = v) :
    serializeStackItemH h v =
      .error "runtime serialize: can not serialize circular reference data" := by
  unfold serializeStackItemH
  suffices hg : circularRefAndDepthDetection h v = true by
    rw [hg]
    simp
  unfold circularRefAndDepthDetection circularRefAndDepthDetectionInternal
  by_contra hgf
  rw [Bool.not_eq_true] at hgf
  exact cycle_unbounded h v (MAX_STRUCT_DEPTH + 1 - 0) p
    (fun q hq => guardAux_false_path_bound h _ v [] q hgf hq) hne hp hcyc

/-- C6 witness: the one-node heap whose array contains itself. -/
theorem serialize_cyclic_array_fails_witness :
    serializeStackItemH [Cell.arr [0]] 0 =
      .error "runtime serialize: can not serialize circular reference data" :=
  serialize_cyclic_array_fails [Cell.arr [0]] 0 [0] rfl [0] (by decide)
    (by decide) (by decide)

/-- A chain of nested single-element Arrays ending in `Integer(0)`; its
container-nesting depth is exactly `n`. -/
def nestedChain : Nat → SI
  | 0 => SI.integer 0
  | n + 1 => SI.arr [nestedChain n]

/-- C7: serializing an acyclic chain of nested Arrays of nesting depth
`MAX_STRUCT_DEPTH + 1` fails with the circular-reference/too-deep error,
while the chain of nesting depth exactly `MAX_STRUCT_DEPTH` serializes
successfully. -/
theorem serialize_depth_boundary :
    serializeStackItem (nestedChain (MAX_STRUCT_DEPTH + 1)) =
      .error "runtime serialize: can not serialize circular reference data" ∧
    ∃ bs, serializeStackItem (nestedChain MAX_STRUCT_DEPTH) = .ok bs := by
  refine ⟨by rfl, ⟨_, by rfl⟩⟩

/-- C8 counterexample: empty containers do not short-circuit past the other
checks.  First, the depth check runs on entry of every call — an empty Array
visited at depth `MAX_STRUCT_DEPTH + 1` makes the guard return `true`, not
`false`.  Second, the Map branch has no empty-container short-circuit at
all: it performs the open-set identity check first, so an empty Map whose
identity is in the open set returns `true`. -/
theorem empty_container_checks_run :
    circularRefAndDepthDetectionInternal [Cell.arr []] 0 [] (MAX_STRUCT_DEPTH + 1) = true ∧
    circularRefAndDepthDetectionInternal [Cell.map []] 0 [0] 5 = true := by
  exact ⟨by rfl, by rfl⟩

/-- C8 (amended): provided the entry depth check passes
(`depth ≤ MAX_STRUCT_DEPTH`), an empty Array or Struct returns `false`
without consulting the open set (any `visited` gives `false`), while an
empty Map performs the identity check first and returns `false` only when
its node is not in the open set. -/
theorem empty_container_guard (h : Heap) (v : Nat) (visited : List Nat) (depth : Nat)
    (hdepth : depth ≤ MAX_STRUCT_DEPTH) :
    ((cellAt h v = Cell.arr [] ∨ cellAt h v = Cell.struct []) →
      circularRefAndDepthDetectionInternal h v visited depth = false) ∧
    (cellAt h v = Cell.map [] → v ∉ visited →
      circularRefAndDepthDetectionInternal h v visited depth = false) := by
  unfold circularRefAndDepthDetectionInternal
  have hgas : MAX_STRUCT_DEPTH + 1 - depth = (MAX_STRUCT_DEPTH - depth) + 1 := by omega
  rw [hgas]
  constructor
  · rintro (hcell | hcell) <;> simp [guardAux, hcell]
  · intro hcell hv
    simp [guardAux, hcell, hv]

/-- C8 witness: an empty array with a stale open set at depth 3, and an
empty map with an empty open set at depth 3. -/
theorem empty_container_guard_witness :
    circularRefAndDepthDetectionInternal [Cell.arr []] 0 [5, 0] 3 = false ∧
    circularRefAndDepthDetectionInternal [Cell.map []] 0 [5] 3 = false := by
  refine ⟨((empty_container_guard [Cell.arr []] 0 [5, 0] 3 (by norm_num [MAX_STRUCT_DEPTH])).1
    (Or.inl rfl)), ((empty_container_guard [Cell.map []] 0 [5] 3
      (by norm_num [MAX_STRUCT_DEPTH])).2 rfl (by decide))⟩

/-- C9: the guard tracks only the containers open on the current recursion
path (each is removed when its subtree finishes), so on every value whose
container paths are bounded by `MAX_STRUCT_DEPTH` — which is exactly
acyclicity within the depth limit, since a cycle would pump unboundedly long
paths — it returns `false`, in particular when the same container node is
shared by sibling branches. -/
theorem guard_false_on_shared_acyclic (h : Heap) (v : Nat)
    (hbound : ∀ p, isPathFrom h v p = true → p.length ≤ MAX_STRUCT_DEPTH) :
    circularRefAndDepthDetection h v = false := by
  unfold circularRefAndDepthDetection circularRefAndDepthDetectionInternal
  apply guardAux_false_of_bounded
  · intro p hp
    have := hbound p hp
    omega
  · intro p _
    simp

/-- C9 witness: a diamond heap in which node 1 is shared by both sibling
branches of the root array; the guard accepts it. -/
theorem guard_false_on_shared_acyclic_witness :
    circularRefAndDepthDetection [Cell.arr [1, 1], Cell.arr [2], Cell.integer 7] 0 = false := by
  apply guard_false_on_shared_acyclic
  intro p hp
  match p with
  | [] => simp
  | x :: q =>
    simp only [isPathFrom, Bool.and_eq_true, decide_eq_true_eq] at hp
    obtain ⟨hx, hq⟩ := hp
    have hx1 : x = 1 := by
      simpa [cellAt, childNodes] using hx
    subst hx1
    match q with
    | [] => simp [MAX_STRUCT_DEPTH]
    | y :: r =>
      simp only [isPathFrom, Bool.and_eq_true, decide_eq_true_eq] at hq
      obtain ⟨hy, hr⟩ := hq
      have hy2 : y = 2 := by
        simpa [cellAt, childNodes] using hy
      subst hy2
      match r with
      | [] => simp [MAX_STRUCT_DEPTH]
      | z :: s =>
        simp only [isPathFrom, Bool.and_eq_true, decide_eq_true_eq] at hr
        obtain ⟨hz, _⟩ := hr
        simp [cellAt, childNodes] at hz

/-- C10: `IntegerType.equals` tries the operand's big-integer coercion first
and compares numerically on success; only on coercion failure does it
compare the two byte forms (propagating a failure of that byte coercion).
`BooleanType.equals` never attempts numeric comparison: it compares byte
forms and turns any coercion failure into `false` — in particular,
`Boolean(false)` and `Integer(0)` coerce to the same big integer yet compare
unequal, because their byte forms `[0]` and `[]` differ. -/
theorem equals_coercion_semantics :
    (∀ (v : Int) (o : SI) (w : Int), getBigInteger o = .ok w →
      integerTypeEquals v o = .ok (decide (v = w))) ∧
    (∀ (v : Int) (o : SI) (e : String) (bs : List Nat), getBigInteger o = .error e →
      getByteArray o = .ok bs →
      integerTypeEquals v o = .ok (decide (bs = bigIntToBytes v))) ∧
    (∀ (v : Int) (o : SI) (e1 e2 : String), getBigInteger o = .error e1 →
      getByteArray o = .error e2 → integerTypeEquals v o = .error e2) ∧
    (∀ (b : Bool) (o : SI) (bs : List Nat), getByteArray o = .ok bs →
      booleanTypeEquals b o = decide ([if b then 1 else 0] = bs)) ∧
    (∀ (b : Bool) (o : SI) (e : String), getByteArray o = .error e →
      booleanTypeEquals b o = false) ∧
    (booleanTypeEquals false (SI.integer 0) = false ∧
      getBigInteger (SI.integer 0) = .ok 0 ∧ getBigInteger (SI.boolean false) = .ok 0) := by
  refine ⟨?_, ?_, ?_, ?_, ?_, by rfl, by rfl, by rfl⟩
  · intro v o w h
    simp [integerTypeEquals, h]
  · intro v o e bs h1 h2
    simp [integerTypeEquals, h1, h2]
  · intro v o e1 e2 h1 h2
    simp [integerTypeEquals, h1, h2]
  · intro b o bs h
    simp [booleanTypeEquals, h]
  · intro b o e h
    simp [booleanTypeEquals, h]

/-- C10 witness: `Integer(5)` against a 9-byte ByteArray (whose big-integer
coercion fails) falls back to byte comparison; `Boolean(true)` against an
Array (whose byte coercion fails) yields `false`; `Integer(5)` against
`Boolean(true)` compares numerically. -/
theorem equals_coercion_semantics_witness :
    integerTypeEquals 5 (SI.byteArr [0, 0, 0, 0, 0, 0, 0, 0, 0]) =
      .ok (decide (([0, 0, 0, 0, 0, 0, 0, 0, 0] : List Nat) = bigIntToBytes 5)) ∧
    booleanTypeEquals true (SI.arr []) = false ∧
    integerTypeEquals 5 (SI.boolean true) = .ok (decide ((5 : Int) = 1)) := by
  refine ⟨?_, ?_, ?_⟩
  · exact equals_coercion_semantics.2.1 5 (SI.byteArr [0, 0, 0, 0, 0, 0, 0, 0, 0])
      "Not support bytearray to big integer" [0, 0, 0, 0, 0, 0, 0, 0, 0] (by rfl) (by rfl)
  · exact equals_coercion_semantics.2.2.2.2.1 true (SI.arr [])
      "Not support array to bytearray" (by rfl)
  · exact equals_coercion_semantics.1 5 (SI.boolean true) 1 (by rfl)
